import Mathlib

set_option linter.unusedVariables false

/-!
Verification of the Tab Placement Coordinator of
`firefox-open-links-outside-tab-group` (`src/background.js`).

The extension's functions are embedded shallowly in a state-plus-exception
monad `M`, parameterised over the host tab/window platform interface
(spec section 6).  Two host models are provided:

* `traceHost` — an adversarial response oracle; spec section 5 allows
  arbitrary interleaved mutation at every suspension point, so any
  response pattern may be observed by the extension.
* `worldHost` — a consistent world store (windows owning ordered tab
  sequences) with injected per-call failures.
-/

/-- A tab snapshot as delivered by the host platform (spec section 6):
identifier, owning window, group identifier, position index within the
window, and the optional opener reference. -/
structure Tab where
  id : Int
  windowId : Int
  groupId : Int
  index : Int
  openerTabId : Option Int
deriving DecidableEq, Repr

/-- MDN: ungrouped tabs have a group id equal to the sentinel -1
(`src/background.js` TAB_GROUP_ID_NONE). -/
def TAB_GROUP_ID_NONE : Int := -1

/-- `src/background.js` isGrouped: true if the tab currently belongs to
a tab group. -/
def isGrouped (t : Tab) : Bool := t.groupId ≠ TAB_GROUP_ID_NONE

/-- Per-window record of the two most recently activated tabs
(`lastTwoActiveByWindow` entries). -/
structure HistRec where
  current : Option Int
  previous : Option Int
deriving DecidableEq, Repr

/-- The process-wide map from window id to activation record. -/
def HistMap : Type := Int → Option HistRec

/-- `src/background.js` onActivated listener: shift `current` into
`previous` when a different tab becomes active in the window. -/
def onActivated (m : HistMap) (tabId windowId : Int) : HistMap :=
  let r := (m windowId).getD ⟨none, none⟩
  if r.current ≠ some tabId then
    fun w => if w = windowId then some ⟨some tabId, r.current⟩ else m w
  else m

/-- Host-interaction monad: state threading plus JS exception
propagation. -/
def M (σ : Type) (α : Type) : Type := σ → Except Unit α × σ

instance : Monad (M σ) where
  pure a := fun s => (Except.ok a, s)
  bind m f := fun s =>
    match m s with
    | (Except.ok a, s1) => f a s1
    | (Except.error e, s1) => (Except.error e, s1)

/-- JS try/catch: run the body; on an exception run the handler from the
state reached at the throw. -/
def tryJS (m : M σ α) (h : M σ α) : M σ α := fun s =>
  match m s with
  | (Except.ok a, s1) => (Except.ok a, s1)
  | (Except.error _, s1) => h s1

/-- A thrown JS exception. -/
def throwJS : M σ α := fun s => (Except.error (), s)

/-- The result of a computation from a given initial state. -/
def resOf (m : M σ α) (s : σ) : Except Unit α := (m s).1

/-- The final state of a computation from a given initial state. -/
def stOf (m : M σ α) (s : σ) : σ := (m s).2

/-- Observable host interactions issued by the extension. -/
inductive Cmd where
  | getTab (tabId : Int)
  | queryGW (groupId windowId : Int)
  | queryW (windowId : Int)
  | move (tabId windowId idx : Int)
  | ungroup (tabId : Int)
  | winCreate
  | winRemove (windowId : Int)
  | waitStep
deriving DecidableEq, Repr

/-- The host tab/window platform interface consumed by the extension
(spec section 6), parameterised by the ambient host-model state. -/
structure Host (σ : Type) where
  getTab : Int → M σ Tab
  queryGW : Int → Int → M σ (List Tab)
  queryW : Int → M σ (List Tab)
  move : Int → Int → Int → M σ Tab
  ungroupAvail : Bool
  ungroup : Int → M σ Unit
  winCreate : M σ Int
  winRemove : Int → M σ Unit
  wait : M σ Unit

/-- `src/background.js` getOpenerForNewTab, candidate computation: the
window record's `current` unless it is the new tab itself, in which case
`previous`; nothing when the record or its `current` is absent. -/
def historyCandidate (hist : HistMap) (newTab : Tab) : Option Int :=
  match hist newTab.windowId with
  | some hr =>
    match hr.current with
    | some c => if c = newTab.id then hr.previous else some c
    | none => none
  | none => none

/-- `src/background.js` getOpenerForNewTab: prefer the real opener;
fall back to the previously active tab in the window. -/
def getOpenerForNewTab (H : Host σ) (hist : HistMap) (newTab : Tab) :
    M σ (Option Tab) := do
  let fromOpener : Option Tab ←
    match newTab.openerTabId with
    | some oid => tryJS (do let t ← H.getTab oid; pure (some t)) (pure none)
    | none => pure none
  match fromOpener with
  | some t => return some t
  | none =>
    match historyCandidate hist newTab with
    | some cid => tryJS (do let t ← H.getTab cid; pure (some t)) (pure none)
    | none => pure none

/-- `src/background.js` lastIndexOfGroup, accumulation loop: the running
maximum of the observed indices, starting from -1. -/
def foldMax (l : List Tab) : Int :=
  l.foldl (fun e t => if t.index > e then t.index else e) (-1)

/-- `src/background.js` lastIndexOfGroup: the last (max) index among all
tabs in the given group within a window, -1 if none. -/
def lastIndexOfGroup (H : Host σ) (groupId windowId : Int) : M σ Int := do
  let groupTabs ← H.queryGW groupId windowId
  return foldMax groupTabs

/-- `src/background.js` ensureUngrouped: ungroup the tab, preferring the
native primitive and falling back to a hop through a minimized popup
window. -/
def ensureUngrouped (H : Host σ) (tabId windowId : Int) : M σ Unit := do
  if H.ungroupAvail then
    let done ← tryJS (do H.ungroup tabId; pure true) (pure false)
    if done then return
  tryJS (do
      let tmpId ← H.winCreate
      let _ ← H.move tabId tmpId (-1)
      let _ ← H.move tabId windowId (-1)
      tryJS (H.winRemove tmpId) (pure ()))
    (pure ())

/-- `src/background.js` moveDirectlyAfterGroup: re-fetch the opener,
force the new tab into the opener's window, ungroup it, then move it to
the slot right after the opener's group, with one retry after a failed
move. -/
def moveDirectlyAfterGroup (H : Host σ) (newTab opener : Tab) : M σ Unit := do
  let winId := opener.windowId
  H.wait
  let fo ← tryJS (do let t ← H.getTab opener.id; pure (some t)) (pure none)
  match fo with
  | none => return
  | some freshOpener =>
    if ¬ isGrouped freshOpener then return
    let groupId := freshOpener.groupId
    if newTab.windowId ≠ winId then
      let moved ← tryJS (do let _ ← H.move newTab.id winId (-1); pure true)
        (pure false)
      if ¬ moved then return
    ensureUngrouped H newTab.id winId
    let e ← lastIndexOfGroup H groupId winId
    if e < 0 then return
    let allTabs ← H.queryW winId
    let target := min (Int.ofNat allTabs.length) (e + 1)
    tryJS (do let _ ← H.move newTab.id winId target; pure ())
      (do
        H.wait
        tryJS (do
            let e2 ← lastIndexOfGroup H groupId winId
            let all2 ← H.queryW winId
            let target2 := min (Int.ofNat all2.length) (e2 + 1)
            let _ ← H.move newTab.id winId target2
            pure ())
          (pure ()))

/-- `src/background.js` onCreated listener: act only when the opener is
grouped, otherwise no-op. -/
def onCreated (H : Host σ) (hist : HistMap) (payload : Option Tab) :
    M σ Unit := do
  match payload with
  | none => return
  | some tab =>
    let opener ← getOpenerForNewTab H hist tab
    match opener with
    | none => return
    | some op =>
      if ¬ isGrouped op then return
      moveDirectlyAfterGroup H tab op

/-- A host response in the adversarial trace model. -/
inductive HResp where
  | fail
  | tab (t : Tab)
  | tabs (ts : List Tab)
  | win (id : Int)
  | ok
deriving DecidableEq, Repr

/-- State of the adversarial trace host: a response oracle, the number
of responses consumed, and the log of issued commands. -/
structure TraceSt where
  oracle : Nat → HResp
  k : Nat
  log : List Cmd

/-- Consume the next oracle response, logging the command. -/
def stepT (c : Cmd) : M TraceSt HResp := fun s =>
  (Except.ok (s.oracle s.k), { s with k := s.k + 1, log := s.log ++ [c] })

/-- Log a command without consuming a response. -/
def logT (c : Cmd) : M TraceSt Unit := fun s =>
  (Except.ok (), { s with log := s.log ++ [c] })

/-- Modelled from the spec: the host as an adversarial responder
(section 5 allows arbitrary concurrent mutation between any two host
calls, so the extension may observe any response pattern; a mismatched
or `fail` response is a rejected host call). -/
def traceHost (ua : Bool) : Host TraceSt where
  getTab tid := do
    match ← stepT (Cmd.getTab tid) with
    | HResp.tab t => pure t
    | _ => throwJS
  queryGW g w := do
    match ← stepT (Cmd.queryGW g w) with
    | HResp.tabs ts => pure ts
    | _ => throwJS
  queryW w := do
    match ← stepT (Cmd.queryW w) with
    | HResp.tabs ts => pure ts
    | _ => throwJS
  move tid w i := do
    match ← stepT (Cmd.move tid w i) with
    | HResp.tab t => pure t
    | _ => throwJS
  ungroupAvail := ua
  ungroup tid := do
    match ← stepT (Cmd.ungroup tid) with
    | HResp.ok => pure ()
    | _ => throwJS
  winCreate := do
    match ← stepT Cmd.winCreate with
    | HResp.win i => pure i
    | _ => throwJS
  winRemove w := do
    match ← stepT (Cmd.winRemove w) with
    | HResp.ok => pure ()
    | _ => throwJS
  wait := logT Cmd.waitStep

/-- A tab record owned by a window: id, group id, opener reference; its
index is its position in the window's sequence (spec section 3). -/
structure TRec where
  id : Int
  groupId : Int
  openerTabId : Option Int
deriving DecidableEq, Repr

/-- Modelled from the spec: the host's world state — windows owning
ordered tab sequences (spec section 3); `nextWin` supplies fresh window
identifiers. -/
structure World where
  wins : List (Int × List TRec)
  nextWin : Int
deriving DecidableEq, Repr

/-- Snapshots of a window's tab records starting at position `i`. -/
def snapFrom (w : Int) (i : Nat) : List TRec → List Tab
  | [] => []
  | r :: ts => ⟨r.id, w, r.groupId, Int.ofNat i, r.openerTabId⟩ :: snapFrom w (i + 1) ts

/-- Snapshots of one window's tab records; index = position. -/
def snapWin (w : Int) (ts : List TRec) : List Tab := snapFrom w 0 ts

/-- All tab snapshots in the world. -/
def allSnaps (W : World) : List Tab :=
  (W.wins.map (fun p => snapWin p.1 p.2)).flatten

/-- The ordered tab records of a window (empty if the window is absent). -/
def winList (W : World) (w : Int) : List TRec :=
  ((W.wins.find? (fun p => p.1 = w)).map Prod.snd).getD []

/-- Fetch a tab snapshot by id. -/
def findTab (W : World) (tid : Int) : Option Tab :=
  (allSnaps W).find? (fun t => t.id = tid)

/-- Whether a window id exists in the world. -/
def winExists (W : World) (w : Int) : Bool :=
  (W.wins.find? (fun p => p.1 = w)).isSome

/-- Insert a record at a host move index: negative means append at the
end, an index beyond the length clamps to the end. -/
def insAt (l : List TRec) (i : Int) (r : TRec) : List TRec :=
  let pos := if i < 0 then l.length else min i.toNat l.length
  l.take pos ++ r :: l.drop pos

/-- Modelled from the spec: host semantics of moving a tab to a window
and index (spec section 4.4 MoveTo: clamped placement; crossing windows
drops group membership, the side effect section 4.4 relies on). -/
def worldMove (W : World) (tid w : Int) (i : Int) : Option (Tab × World) :=
  match findTab W tid with
  | none => none
  | some snap =>
    if winExists W w then
      let r : TRec :=
        ⟨tid, if snap.windowId ≠ w then TAB_GROUP_ID_NONE else snap.groupId,
          snap.openerTabId⟩
      let cleaned := W.wins.map (fun p => (p.1, p.2.filter (fun t => t.id ≠ tid)))
      let wins2 := cleaned.map (fun p => if p.1 = w then (p.1, insAt p.2 i r) else p)
      some (snap, { W with wins := wins2 })
    else none

/-- Modelled from the spec: host semantics of ungrouping a tab
(membership removal only, spec section 4.4). -/
def worldUngroup (W : World) (tid : Int) : Option World :=
  if (findTab W tid).isSome then
    some { W with wins := W.wins.map (fun p =>
      (p.1, p.2.map (fun t =>
        if t.id = tid then ⟨t.id, TAB_GROUP_ID_NONE, t.openerTabId⟩ else t))) }
  else none

/-- Modelled from the spec: creating the auxiliary popup window
(spec section 4.4), initially empty. -/
def worldWinCreate (W : World) : Int × World :=
  (W.nextWin, ⟨W.wins ++ [(W.nextWin, [])], W.nextWin + 1⟩)

/-- Modelled from the spec: discarding the auxiliary window
(spec section 4.4). -/
def worldWinRemove (W : World) (w : Int) : Option World :=
  if winExists W w then some ⟨W.wins.filter (fun p => p.1 ≠ w), W.nextWin⟩
  else none

/-- State of the concrete world host: the world, a failure-injection
oracle indexed by host-call count, the call counter, and the command
log. -/
structure WSt where
  world : World
  failAt : Nat → Bool
  k : Nat
  log : List Cmd

/-- Advance the call counter and log the command. -/
def bumpW (c : Cmd) (s : WSt) : WSt := { s with k := s.k + 1, log := s.log ++ [c] }

/-- Run one world-host call: log it, consult the failure oracle, then
apply the world semantics (which may itself fail). -/
def callW (c : Cmd) (f : World → Option (α × World)) : M WSt α := fun s =>
  let s1 := bumpW c s
  if s.failAt s.k then (Except.error (), s1)
  else
    match f s.world with
    | some (a, W2) => (Except.ok a, { s1 with world := W2 })
    | none => (Except.error (), s1)

/-- Modelled from the spec: the host as a consistent world store with
injected call failures (spec section 6: every call may fail). -/
def worldHost (ua : Bool) : Host WSt where
  getTab tid := callW (Cmd.getTab tid)
    (fun W => (findTab W tid).map (fun t => (t, W)))
  queryGW g w := callW (Cmd.queryGW g w)
    (fun W => some ((snapWin w (winList W w)).filter (fun t => t.groupId = g), W))
  queryW w := callW (Cmd.queryW w)
    (fun W => some (snapWin w (winList W w), W))
  move tid w i := callW (Cmd.move tid w i) (fun W => worldMove W tid w i)
  ungroupAvail := ua
  ungroup tid := callW (Cmd.ungroup tid)
    (fun W => (worldUngroup W tid).map (fun W2 => ((), W2)))
  winCreate := callW Cmd.winCreate (fun W => some (worldWinCreate W))
  winRemove w := callW (Cmd.winRemove w)
    (fun W => (worldWinRemove W w).map (fun W2 => ((), W2)))
  wait := fun s => (Except.ok (), { s with log := s.log ++ [Cmd.waitStep] })

/-- A fold of the index maximum from an arbitrary start value; equals the
loop of `lastIndexOfGroup` when started at -1. -/
def foldMaxFrom (a : Int) (l : List Tab) : Int :=
  l.foldl (fun e t => if t.index > e then t.index else e) a

/-- The tab ids of a window sequence. -/
def idsOf (l : List TRec) : List Int := l.map (fun r => r.id)

/-- All tab ids in the world. -/
def allIds (W : World) : List Int := (W.wins.map (fun p => idsOf p.2)).flatten

/-- Host-maintained well-formedness (spec section 3): window ids are
unique, tab ids are unique across the world, and window ids created so
far are below the fresh counter. -/
def WF (W : World) : Prop :=
  (W.wins.map Prod.fst).Nodup ∧ (allIds W).Nodup ∧ ∀ p ∈ W.wins, p.1 < W.nextWin

/-- Position of a tab id in a window sequence. -/
def idxOfTab : List TRec → Int → Option Nat
  | [], _ => none
  | r :: ts, tid => if r.id = tid then some 0 else (idxOfTab ts tid).map (· + 1)

/-- The index of a tab inside a given window of the world. -/
def tabPos (W : World) (w tid : Int) : Option Nat := idxOfTab (winList W w) tid

/-- The number of tabs in a window. -/
def winCount (W : World) (w : Int) : Nat := (winList W w).length

/-- The snapshots of a group's members inside a window, exactly what the
host returns for the group-filtered query. -/
def groupSnaps (W : World) (g w : Int) : List Tab :=
  (snapWin w (winList W w)).filter (fun t => t.groupId = g)

/-- The group's end index in a window: maximum member index, -1 if the
group has no member there. -/
def groupEnd (W : World) (g w : Int) : Int := foldMax (groupSnaps W g w)

/-- The world after the orchestrator's window-fix move (step 5). -/
def fixWindow (W : World) (tid w : Int) : World :=
  ((worldMove W tid w (-1)).map Prod.snd).getD W

/-- The world after ungrouping a tab. -/
def ungroupedW (W : World) (tid : Int) : World := (worldUngroup W tid).getD W

/-- The group id recorded for a tab in the world. -/
def tabGid (W : World) (tid : Int) : Option Int := (findTab W tid).map (fun t => t.groupId)

/-- The window recorded for a tab in the world. -/
def tabWin (W : World) (tid : Int) : Option Int := (findTab W tid).map (fun t => t.windowId)

/-- A placement move: a move command aimed at a non-negative index (the
window-fix and window-hop moves always use index -1). -/
def isTargetMove : Cmd → Bool
  | Cmd.move _ _ i => decide (0 ≤ i)
  | _ => false

/-- Number of placement moves in a command log. -/
def mvCount (l : List Cmd) : Nat := l.countP isTargetMove

/-- Whether a command mutates tab placement or grouping. -/
def isMoveOrUngroup : Cmd → Bool
  | Cmd.move _ _ _ => true
  | Cmd.ungroup _ => true
  | _ => false

/-- The history-tracker invariant: `current` never equals `previous`
once both are populated. -/
def histInv (m : HistMap) : Prop :=
  ∀ w r, m w = some r → ∀ c p, r.current = some c → r.previous = some p → c ≠ p

/-- An empty activation history. -/
def histEmpty : HistMap := fun _ => none

/-- A failure oracle that never injects a failure. -/
def noFail : Nat → Bool := fun _ => false

/-- Spec section 8 scenario 1: window 7 holds tabs 100..103 at indices
0..3, tabs 101 and 102 in group 5, and the new tab 200 at index 4. -/
def exW1 : World :=
  ⟨[(7, [⟨100, -1, none⟩, ⟨101, 5, none⟩, ⟨102, 5, none⟩, ⟨103, -1, none⟩,
    ⟨200, -1, some 101⟩])], 50⟩

/-- The creation payload of scenario 1: tab 200, opened from tab 101. -/
def exTab1 : Tab := ⟨200, 7, -1, 4, some 101⟩

/-- A window whose group extends to the last slot while the new tab sits
before it: records 10 and 12 are in group 5, the new tab 11 is between
them. -/
def cexW : World := ⟨[(1, [⟨10, 5, none⟩, ⟨11, -1, some 10⟩, ⟨12, 5, none⟩])], 50⟩

/-- The creation payload for `cexW`: tab 11, opened from grouped tab 10. -/
def cexTab : Tab := ⟨11, 1, -1, 1, some 10⟩

/-- A two-tab window for the window-hop experiment: both tabs ungrouped,
tab 1 at index 0. -/
def hopW : World := ⟨[(7, [⟨1, -1, none⟩, ⟨2, -1, none⟩])], 100⟩

/-- A failure oracle that rejects exactly the fourth host call (the
orchestrator's initial group-boundary query on the happy path). -/
def failQ : Nat → Bool := fun k => decide (k = 3)

/-- An opener snapshot used by the adversarial runs: tab 101 in group 5
of window 7. -/
def opT : Tab := ⟨101, 7, 5, 1, none⟩

/-- An adversarial response schedule on which the first placement move is
rejected and the group has vanished by the time of the retry: the retry
recomputation observes an empty group and an empty window. -/
def c5oracle : Nat → HResp := fun k =>
  match k with
  | 0 => HResp.tab opT
  | 1 => HResp.tab opT
  | 2 => HResp.ok
  | 3 => HResp.tabs [⟨101, 7, 5, 1, none⟩]
  | 4 => HResp.tabs [⟨100, 7, -1, 0, none⟩, ⟨101, 7, 5, 1, none⟩,
      ⟨200, 7, -1, 2, none⟩]
  | 5 => HResp.fail
  | 6 => HResp.tabs []
  | 7 => HResp.tabs []
  | _ => HResp.tab opT

/-- A computation appends at most `n` placement moves to the log. -/
def addsMv (m : M TraceSt α) (n : Nat) : Prop :=
  ∀ s, mvCount ((m s).2.log) ≤ mvCount s.log + n

/-- An adversarial schedule whose first placement move is rejected while
both retry recomputations succeed: opener 101 grouped in window 7, group
end 1, three tabs before the failed move and two at the retry. -/
def c6oracle : Nat → HResp := fun k =>
  match k with
  | 0 => HResp.tab opT
  | 1 => HResp.ok
  | 2 => HResp.tabs [opT]
  | 3 => HResp.tabs [⟨100, 7, -1, 0, none⟩, ⟨101, 7, 5, 1, none⟩,
      ⟨200, 7, -1, 2, none⟩]
  | 4 => HResp.fail
  | 5 => HResp.tabs [opT]
  | 6 => HResp.tabs [⟨101, 7, 5, 1, none⟩, ⟨200, 7, -1, 2, none⟩]
  | _ => HResp.tab opT

/-- A computation that never lets an exception escape. -/
def noThrow (m : M σ α) : Prop := ∀ s, (m s).1 ≠ Except.error ()

/-- A command log ending in one of the two unprotected tab queries. -/
def endsWithQuery (l : List Cmd) : Prop :=
  (∃ g w, l.getLast? = some (Cmd.queryGW g w)) ∨ ∃ w, l.getLast? = some (Cmd.queryW w)

/-- Any escaping exception of the computation was raised by a tab query
logged last. -/
def lastQ (m : M TraceSt α) : Prop :=
  ∀ s, (m s).1 = Except.error () → endsWithQuery ((m s).2.log)

/-- The computation leaves the world untouched. -/
def keepsWorld (m : M WSt α) : Prop := ∀ s, ((m s).2).world = s.world

/-- The computation only ever appends tab-fetch commands to the log. -/
def onlyGets (m : M WSt α) : Prop :=
  ∀ s c, c ∈ ((m s).2).log → c ∈ s.log ∨ ∃ i, c = Cmd.getTab i

/-! Application lemmas for the monad operations. -/

theorem pureApp (a : α) (s : σ) : (pure a : M σ α) s = (Except.ok a, s) := rfl

theorem bindApp (m : M σ α) (f : α → M σ β) (s : σ) :
    (m >>= f) s = match m s with
      | (Except.ok a, s1) => f a s1
      | (Except.error e, s1) => (Except.error e, s1) := rfl

theorem bindAppOk {m : M σ α} {s : σ} {a : α} {s1 : σ} (f : α → M σ β)
    (h : m s = (Except.ok a, s1)) : (m >>= f) s = f a s1 := by
  rw [bindApp, h]

theorem bindAppErr {m : M σ α} {s : σ} {e : Unit} {s1 : σ} (f : α → M σ β)
    (h : m s = (Except.error e, s1)) : (m >>= f) s = (Except.error e, s1) := by
  rw [bindApp, h]

theorem tryJSApp (m h : M σ α) (s : σ) :
    tryJS m h s = match m s with
      | (Except.ok a, s1) => (Except.ok a, s1)
      | (Except.error _, s1) => h s1 := rfl

theorem tryJSAppOk {m : M σ α} {s : σ} {a : α} {s1 : σ} (h : M σ α)
    (hm : m s = (Except.ok a, s1)) : tryJS m h s = (Except.ok a, s1) := by
  rw [tryJSApp, hm]

theorem tryJSAppErr {m : M σ α} {s : σ} {e : Unit} {s1 : σ} (h : M σ α)
    (hm : m s = (Except.error e, s1)) : tryJS m h s = h s1 := by
  rw [tryJSApp, hm]

theorem throwJSApp (s : σ) : (throwJS : M σ α) s = (Except.error (), s) := rfl

/-- C1 counterexample: in `cexW`, group 5 occupies indices 0 and 2 of a
3-tab window (its maximum index is the window's last slot) and the new
tab 11 sits ungrouped between the members.  The claimed final index
`min(tabCountInWindow, max+1) = min(3, 3) = 3` is not the tab's final
index: the handler moves it to index 2, the window's last slot. -/
theorem C1_counterexample :
    tabPos (stOf (onCreated (worldHost true) histEmpty (some cexTab))
        ⟨cexW, noFail, 0, []⟩).world 1 11 = some 2
    ∧ min (Int.ofNat (winCount cexW 1)) (groupEnd cexW 5 1 + 1) = 3
    ∧ tabPos (stOf (onCreated (worldHost true) histEmpty (some cexTab))
        ⟨cexW, noFail, 0, []⟩).world 1 11 ≠
        some (min (Int.ofNat (winCount cexW 1)) (groupEnd cexW 5 1 + 1)).toNat := by
  decide

/-- C5 counterexample: on the `c5oracle` schedule the first placement
move is rejected and the retry's fresh boundary recomputation (oracle
response 6) reports the group empty, yet the run still issues a final
move command to index `min(0, -1+1) = 0` instead of stopping. -/
theorem C5_counterexample :
    (stOf (onCreated (traceHost true) histEmpty (some exTab1))
        ⟨c5oracle, 0, []⟩).log =
      [Cmd.getTab 101, Cmd.waitStep, Cmd.getTab 101, Cmd.ungroup 200,
       Cmd.queryGW 5 7, Cmd.queryW 7, Cmd.move 200 7 2, Cmd.waitStep,
       Cmd.queryGW 5 7, Cmd.queryW 7, Cmd.move 200 7 0]
    ∧ c5oracle 6 = HResp.tabs [] ∧ foldMax [] = -1 := by
  decide

/-- C7 counterexample: with the native ungroup primitive unavailable,
EnsureUngrouped on the already-ungrouped tab 1 (index 0 of window 7)
hops it through the auxiliary window and back to the tail, changing its
index from 0 to 1. -/
theorem C7_counterexample :
    tabPos hopW 7 1 = some 0 ∧ tabGid hopW 1 = some TAB_GROUP_ID_NONE
    ∧ tabPos (stOf (ensureUngrouped (worldHost false) 1 7)
        ⟨hopW, noFail, 0, []⟩).world 7 1 = some 1 := by
  decide

/-- C9 counterexample: when the host rejects the initial group-boundary
query (the fourth host call, `failQ`), the exception escapes the
tab-creation handler: the run ends in an error. -/
theorem C9_counterexample :
    resOf (onCreated (worldHost true) histEmpty (some exTab1))
        ⟨exW1, failQ, 0, []⟩ = Except.error () := by
  rfl

/-- C8: the activation tracker updates a window's record only when the
newly activated id differs from `current` (shifting `current` into
`previous`, leaving other windows untouched), and the invariant
`current ≠ previous` (once both populated) is preserved by every
activation event and holds for the empty map. -/
theorem C8_history_tracker :
    (∀ (m : HistMap) (t w : Int),
        ((m w).getD ⟨none, none⟩).current = some t → onActivated m t w = m)
    ∧ (∀ (m : HistMap) (t w : Int),
        ((m w).getD ⟨none, none⟩).current ≠ some t →
          onActivated m t w w = some ⟨some t, ((m w).getD ⟨none, none⟩).current⟩
          ∧ ∀ w2, w2 ≠ w → onActivated m t w w2 = m w2)
    ∧ (∀ (m : HistMap) (t w : Int), histInv m → histInv (onActivated m t w))
    ∧ histInv histEmpty := by
  refine ⟨?_, ?_, ?_, ?_⟩
  · intro m t w h
    unfold onActivated
    simp only [h, ne_eq, not_true_eq_false, if_false]
  · intro m t w h
    unfold onActivated
    simp only [ne_eq, h, not_false_eq_true, if_true]
    exact ⟨by simp, fun w2 hw2 => by simp [hw2]⟩
  · intro m t w hinv
    unfold onActivated
    by_cases h : ((m w).getD ⟨none, none⟩).current ≠ some t
    · simp only [ne_eq, h, not_false_eq_true, if_true]
      intro w2 r hr c p hc hp
      dsimp only at hr
      by_cases hw : w2 = w
      · subst hw
        rw [if_pos rfl] at hr
        injection hr with h2
        rw [← h2] at hc hp
        dsimp only at hc hp
        injection hc with h3
        intro hcp
        apply h
        rw [hp, ← hcp, h3]
      · rw [if_neg hw] at hr
        exact hinv w2 r hr c p hc hp
    · simp only [ne_eq, h, if_false]
      exact hinv
  · intro w r hr
    cases hr

/-- C8 witness: activating tab 4 in window 7 from the empty history
populates the record; re-activating it changes nothing. -/
theorem C8_witness :
    onActivated (onActivated histEmpty 4 7) 4 7 = onActivated histEmpty 4 7
    ∧ onActivated histEmpty 4 7 7 = some ⟨some 4, none⟩ := by
  refine ⟨C8_history_tracker.1 _ 4 7 (by decide), ?_⟩
  exact (C8_history_tracker.2.1 histEmpty 4 7 (by decide)).1

theorem foldMaxFromCons (a : Int) (t : Tab) (l : List Tab) :
    foldMaxFrom a (t :: l) = foldMaxFrom (if t.index > a then t.index else a) l := rfl

theorem foldMaxDef (l : List Tab) : foldMax l = foldMaxFrom (-1) l := rfl

theorem stepIsMax (a b : Int) : (if b > a then b else a) = max a b := by
  rcases lt_or_ge a b with h | h
  · rw [if_pos h, max_eq_right h.le]
  · rw [if_neg (not_lt.mpr h), max_eq_left h]

theorem leFoldMaxFromInit (a : Int) (l : List Tab) : a ≤ foldMaxFrom a l := by
  induction l generalizing a with
  | nil => exact le_refl a
  | cons t l ih =>
    rw [foldMaxFromCons, stepIsMax]
    exact le_trans (le_max_left a t.index) (ih _)

theorem leFoldMaxFromMem {t : Tab} :
    ∀ {l : List Tab} (a : Int), t ∈ l → t.index ≤ foldMaxFrom a l
  | [], _, h => absurd h (List.not_mem_nil t)
  | x :: l, a, h => by
    rw [foldMaxFromCons, stepIsMax]
    rcases List.mem_cons.mp h with h1 | h1
    · subst h1
      exact le_trans (le_max_right a t.index) (leFoldMaxFromInit _ _)
    · exact leFoldMaxFromMem (max a x.index) h1

theorem foldMaxFromCases : ∀ (l : List Tab) (a : Int),
    foldMaxFrom a l = a ∨ ∃ t ∈ l, foldMaxFrom a l = t.index
  | [], a => Or.inl rfl
  | x :: l, a => by
    rw [foldMaxFromCons]
    by_cases hx : x.index > a
    · rw [if_pos hx]
      rcases foldMaxFromCases l x.index with h | ⟨t, ht, he⟩
      · exact Or.inr ⟨x, List.mem_cons_self x l, h⟩
      · exact Or.inr ⟨t, List.mem_cons_of_mem x ht, he⟩
    · rw [if_neg hx]
      rcases foldMaxFromCases l a with h | ⟨t, ht, he⟩
      · exact Or.inl h
      · exact Or.inr ⟨t, List.mem_cons_of_mem x ht, he⟩

theorem foldMaxFromPerm (a : Int) {l l2 : List Tab} (h : l.Perm l2) :
    foldMaxFrom a l = foldMaxFrom a l2 := by
  induction h generalizing a with
  | nil => rfl
  | cons x h ih =>
    rw [foldMaxFromCons, foldMaxFromCons]
    exact ih _
  | swap x y l =>
    simp only [foldMaxFromCons, stepIsMax]
    rw [max_assoc, max_assoc, max_comm y.index x.index]
  | trans h1 h2 ih1 ih2 => exact (ih1 a).trans (ih2 a)

theorem negOneLeFoldMax (l : List Tab) : -1 ≤ foldMax l := leFoldMaxFromInit (-1) l

theorem traceQueryGWOk {s : TraceSt} {l : List Tab} (ua : Bool) (g w : Int)
    (h : s.oracle s.k = HResp.tabs l) :
    (traceHost ua).queryGW g w s =
      (Except.ok l, { s with k := s.k + 1, log := s.log ++ [Cmd.queryGW g w] }) := by
  simp only [traceHost, stepT, bindApp, h, pureApp]

theorem lastIndexAppT {s : TraceSt} {l : List Tab} (ua : Bool) (g w : Int)
    (h : s.oracle s.k = HResp.tabs l) :
    lastIndexOfGroup (traceHost ua) g w s =
      (Except.ok (foldMax l), { s with k := s.k + 1, log := s.log ++ [Cmd.queryGW g w] }) := by
  unfold lastIndexOfGroup
  rw [bindApp, traceQueryGWOk ua g w h]
  rfl

/-- C4: the boundary calculator returns the running maximum of the host's
answer to the group query — a value invariant under any reordering of the
returned snapshots, equal to -1 when the set is empty, an upper bound of
every member index, and attained by a member whenever the set is nonempty
with host-conforming (non-negative) indices; over the consistent world
host it returns exactly `groupEnd`, the maximum index of the group's
members in the window. -/
theorem C4_boundary_max :
    ∀ (o : Nat → HResp) (ua : Bool) (g w : Int) (l : List Tab),
      o 0 = HResp.tabs l →
      resOf (lastIndexOfGroup (traceHost ua) g w) ⟨o, 0, []⟩ = Except.ok (foldMax l)
      ∧ (∀ l2, l.Perm l2 → foldMax l2 = foldMax l)
      ∧ (l = [] → foldMax l = -1)
      ∧ (∀ t ∈ l, t.index ≤ foldMax l)
      ∧ ((∀ t ∈ l, 0 ≤ t.index) → l ≠ [] → ∃ t ∈ l, foldMax l = t.index)
      ∧ ∀ (W : World), resOf (lastIndexOfGroup (worldHost ua) g w)
          ⟨W, noFail, 0, []⟩ = Except.ok (groupEnd W g w) := by
  intro o ua g w l ho
  refine ⟨?_, ?_, ?_, ?_, ?_, ?_⟩
  · unfold resOf
    rw [lastIndexAppT ua g w ho]
  · intro l2 hp
    exact (foldMaxFromPerm (-1) hp).symm
  · intro h
    subst h
    rfl
  · intro t ht
    exact leFoldMaxFromMem (-1) ht
  · intro hpos hne
    rcases foldMaxFromCases l (-1) with h | h
    · rcases List.exists_mem_of_ne_nil l hne with ⟨t, ht⟩
      have h1 := leFoldMaxFromMem (-1) ht
      rw [h] at h1
      exact absurd (le_trans (hpos t ht) h1) (by norm_num)
    · exact h
  · intro W
    rfl

/-- C4 witness: a host answer listing group members at indices 1 and 2
(in either order) yields boundary 2. -/
theorem C4_witness :
    resOf (lastIndexOfGroup (traceHost true) 5 7)
      ⟨fun _ => HResp.tabs [⟨102, 7, 5, 2, none⟩, ⟨101, 7, 5, 1, none⟩], 0, []⟩ =
      Except.ok 2 := by
  have h := (C4_boundary_max
    (fun _ => HResp.tabs [⟨102, 7, 5, 2, none⟩, ⟨101, 7, 5, 1, none⟩])
    true 5 7 [⟨102, 7, 5, 2, none⟩, ⟨101, 7, 5, 1, none⟩] rfl).1
  exact h.trans (congrArg Except.ok (by decide))

theorem traceWaitApp (ua : Bool) (s : TraceSt) :
    (traceHost ua).wait s =
      (Except.ok (), { s with log := s.log ++ [Cmd.waitStep] }) := rfl

theorem traceGetOk {s : TraceSt} {t : Tab} (ua : Bool) (tid : Int)
    (h : s.oracle s.k = HResp.tab t) :
    (traceHost ua).getTab tid s =
      (Except.ok t, { s with k := s.k + 1, log := s.log ++ [Cmd.getTab tid] }) := by
  simp only [traceHost, stepT, bindApp, h, pureApp]

theorem traceGetErr {s : TraceSt} (ua : Bool) (tid : Int)
    (h : ∀ t, s.oracle s.k ≠ HResp.tab t) :
    (traceHost ua).getTab tid s =
      (Except.error (), { s with k := s.k + 1, log := s.log ++ [Cmd.getTab tid] }) := by
  cases ho : s.oracle s.k with
  | tab t => exact absurd ho (h t)
  | fail => simp only [traceHost, stepT, bindApp, ho, throwJSApp]
  | tabs ts => simp only [traceHost, stepT, bindApp, ho, throwJSApp]
  | win i => simp only [traceHost, stepT, bindApp, ho, throwJSApp]
  | ok => simp only [traceHost, stepT, bindApp, ho, throwJSApp]

theorem traceQueryGWErr {s : TraceSt} (ua : Bool) (g w : Int)
    (h : ∀ l, s.oracle s.k ≠ HResp.tabs l) :
    (traceHost ua).queryGW g w s =
      (Except.error (), { s with k := s.k + 1, log := s.log ++ [Cmd.queryGW g w] }) := by
  cases ho : s.oracle s.k with
  | tabs ts => exact absurd ho (h ts)
  | fail => simp only [traceHost, stepT, bindApp, ho, throwJSApp]
  | tab t => simp only [traceHost, stepT, bindApp, ho, throwJSApp]
  | win i => simp only [traceHost, stepT, bindApp, ho, throwJSApp]
  | ok => simp only [traceHost, stepT, bindApp, ho, throwJSApp]

theorem traceQueryWOk {s : TraceSt} {l : List Tab} (ua : Bool) (w : Int)
    (h : s.oracle s.k = HResp.tabs l) :
    (traceHost ua).queryW w s =
      (Except.ok l, { s with k := s.k + 1, log := s.log ++ [Cmd.queryW w] }) := by
  simp only [traceHost, stepT, bindApp, h, pureApp]

theorem traceQueryWErr {s : TraceSt} (ua : Bool) (w : Int)
    (h : ∀ l, s.oracle s.k ≠ HResp.tabs l) :
    (traceHost ua).queryW w s =
      (Except.error (), { s with k := s.k + 1, log := s.log ++ [Cmd.queryW w] }) := by
  cases ho : s.oracle s.k with
  | tabs ts => exact absurd ho (h ts)
  | fail => simp only [traceHost, stepT, bindApp, ho, throwJSApp]
  | tab t => simp only [traceHost, stepT, bindApp, ho, throwJSApp]
  | win i => simp only [traceHost, stepT, bindApp, ho, throwJSApp]
  | ok => simp only [traceHost, stepT, bindApp, ho, throwJSApp]

theorem traceMoveOk {s : TraceSt} {t : Tab} (ua : Bool) (tid w i : Int)
    (h : s.oracle s.k = HResp.tab t) :
    (traceHost ua).move tid w i s =
      (Except.ok t, { s with k := s.k + 1, log := s.log ++ [Cmd.move tid w i] }) := by
  simp only [traceHost, stepT, bindApp, h, pureApp]

theorem traceMoveErr {s : TraceSt} (ua : Bool) (tid w i : Int)
    (h : ∀ t, s.oracle s.k ≠ HResp.tab t) :
    (traceHost ua).move tid w i s =
      (Except.error (), { s with k := s.k + 1, log := s.log ++ [Cmd.move tid w i] }) := by
  cases ho : s.oracle s.k with
  | tab t => exact absurd ho (h t)
  | fail => simp only [traceHost, stepT, bindApp, ho, throwJSApp]
  | tabs ts => simp only [traceHost, stepT, bindApp, ho, throwJSApp]
  | win i2 => simp only [traceHost, stepT, bindApp, ho, throwJSApp]
  | ok => simp only [traceHost, stepT, bindApp, ho, throwJSApp]

theorem traceUngroupOk {s : TraceSt} (ua : Bool) (tid : Int)
    (h : s.oracle s.k = HResp.ok) :
    (traceHost ua).ungroup tid s =
      (Except.ok (), { s with k := s.k + 1, log := s.log ++ [Cmd.ungroup tid] }) := by
  simp only [traceHost, stepT, bindApp, h, pureApp]

theorem traceUngroupErr {s : TraceSt} (ua : Bool) (tid : Int)
    (h : s.oracle s.k ≠ HResp.ok) :
    (traceHost ua).ungroup tid s =
      (Except.error (), { s with k := s.k + 1, log := s.log ++ [Cmd.ungroup tid] }) := by
  cases ho : s.oracle s.k with
  | ok => exact absurd ho h
  | fail => simp only [traceHost, stepT, bindApp, ho, throwJSApp]
  | tab t => simp only [traceHost, stepT, bindApp, ho, throwJSApp]
  | tabs ts => simp only [traceHost, stepT, bindApp, ho, throwJSApp]
  | win i => simp only [traceHost, stepT, bindApp, ho, throwJSApp]

theorem traceWinCreateOk {s : TraceSt} {i : Int} (ua : Bool)
    (h : s.oracle s.k = HResp.win i) :
    (traceHost ua).winCreate s =
      (Except.ok i, { s with k := s.k + 1, log := s.log ++ [Cmd.winCreate] }) := by
  simp only [traceHost, stepT, bindApp, h, pureApp]

theorem traceWinRemoveOk {s : TraceSt} (ua : Bool) (w : Int)
    (h : s.oracle s.k = HResp.ok) :
    (traceHost ua).winRemove w s =
      (Except.ok (), { s with k := s.k + 1, log := s.log ++ [Cmd.winRemove w] }) := by
  simp only [traceHost, stepT, bindApp, h, pureApp]

theorem tryGetOk {s : TraceSt} {t : Tab} (ua : Bool) (tid : Int)
    (h : s.oracle s.k = HResp.tab t) :
    tryJS (do let x ← (traceHost ua).getTab tid; pure (some x)) (pure none) s =
      (Except.ok (some t),
        { s with k := s.k + 1, log := s.log ++ [Cmd.getTab tid] }) := by
  rw [tryJSApp, bindApp, traceGetOk ua tid h]

theorem tryGetErr {s : TraceSt} (ua : Bool) (tid : Int)
    (h : ∀ t, s.oracle s.k ≠ HResp.tab t) :
    tryJS (do let x ← (traceHost ua).getTab tid; pure (some x)) (pure none) s =
      (Except.ok (none : Option Tab),
        { s with k := s.k + 1, log := s.log ++ [Cmd.getTab tid] }) := by
  rw [tryJSApp, bindApp, traceGetErr ua tid h]
  rfl

/-- C3: the opener resolver returns the tab fetched via the explicit
opener reference whenever it is present and the fetch succeeds;
otherwise it consults the window's history record — choosing `current`
when it differs from the new tab's id and `previous` when it equals it —
and returns that candidate when its fetch succeeds; when no candidate
resolves it returns none. -/
theorem C3_opener_resolver :
    ∀ (o : Nat → HResp) (ua : Bool) (hist : HistMap) (nt : Tab),
      (∀ oid t, nt.openerTabId = some oid → o 0 = HResp.tab t →
        resOf (getOpenerForNewTab (traceHost ua) hist nt) ⟨o, 0, []⟩ =
          Except.ok (some t))
      ∧ (∀ hr c, hist nt.windowId = some hr → hr.current = some c →
          historyCandidate hist nt = if c = nt.id then hr.previous else some c)
      ∧ (∀ hr, hist nt.windowId = some hr → hr.current = none →
          historyCandidate hist nt = none)
      ∧ (hist nt.windowId = none → historyCandidate hist nt = none)
      ∧ (∀ cid t, nt.openerTabId = none → historyCandidate hist nt = some cid →
          o 0 = HResp.tab t →
          resOf (getOpenerForNewTab (traceHost ua) hist nt) ⟨o, 0, []⟩ =
            Except.ok (some t))
      ∧ (∀ cid, nt.openerTabId = none → historyCandidate hist nt = some cid →
          (∀ t, o 0 ≠ HResp.tab t) →
          resOf (getOpenerForNewTab (traceHost ua) hist nt) ⟨o, 0, []⟩ =
            Except.ok none)
      ∧ (nt.openerTabId = none → historyCandidate hist nt = none →
          resOf (getOpenerForNewTab (traceHost ua) hist nt) ⟨o, 0, []⟩ =
            Except.ok none)
      ∧ (∀ oid cid t2, nt.openerTabId = some oid → (∀ t, o 0 ≠ HResp.tab t) →
          historyCandidate hist nt = some cid → o 1 = HResp.tab t2 →
          resOf (getOpenerForNewTab (traceHost ua) hist nt) ⟨o, 0, []⟩ =
            Except.ok (some t2))
      ∧ (∀ oid cid, nt.openerTabId = some oid → (∀ t, o 0 ≠ HResp.tab t) →
          historyCandidate hist nt = some cid → (∀ t, o 1 ≠ HResp.tab t) →
          resOf (getOpenerForNewTab (traceHost ua) hist nt) ⟨o, 0, []⟩ =
            Except.ok none)
      ∧ (∀ oid, nt.openerTabId = some oid → (∀ t, o 0 ≠ HResp.tab t) →
          historyCandidate hist nt = none →
          resOf (getOpenerForNewTab (traceHost ua) hist nt) ⟨o, 0, []⟩ =
            Except.ok none) := by
  intro o ua hist nt
  refine ⟨?_, ?_, ?_, ?_, ?_, ?_, ?_, ?_, ?_, ?_⟩
  · intro oid t hop ho
    unfold resOf getOpenerForNewTab
    simp only [hop]
    rw [bindApp, tryGetOk ua oid ho]
    rfl
  · intro hr c h1 h2
    simp only [historyCandidate, h1, h2]
  · intro hr h1 h2
    simp only [historyCandidate, h1, h2]
  · intro h1
    simp only [historyCandidate, h1]
  · intro cid t hop hcand ho
    unfold resOf getOpenerForNewTab
    simp only [hop]
    rw [bindApp, pureApp]
    dsimp only
    simp only [hcand]
    rw [tryGetOk ua cid ho]
  · intro cid hop hcand ho
    unfold resOf getOpenerForNewTab
    simp only [hop]
    rw [bindApp, pureApp]
    dsimp only
    simp only [hcand]
    rw [tryGetErr ua cid ho]
  · intro hop hcand
    unfold resOf getOpenerForNewTab
    simp only [hop]
    rw [bindApp, pureApp]
    dsimp only
    simp only [hcand]
    rfl
  · intro oid cid t2 hop h0 hcand h1
    unfold resOf getOpenerForNewTab
    simp only [hop]
    rw [bindApp, tryGetErr ua oid h0]
    dsimp only
    simp only [hcand]
    rw [tryGetOk ua cid h1]
  · intro oid cid hop h0 hcand h1
    unfold resOf getOpenerForNewTab
    simp only [hop]
    rw [bindApp, tryGetErr ua oid h0]
    dsimp only
    simp only [hcand]
    rw [tryGetErr ua cid h1]
  · intro oid hop h0 hcand
    unfold resOf getOpenerForNewTab
    simp only [hop]
    rw [bindApp, tryGetErr ua oid h0]
    dsimp only
    simp only [hcand]
    rfl

/-- C3 witness, spec section 8 scenario 3: the explicit opener reference
is dead (host rejects the fetch), the window record's `current` is tab
101 which differs from the new tab's id, and fetching 101 yields `opT`:
the resolver returns `opT`. -/
theorem C3_witness :
    resOf (getOpenerForNewTab
        (traceHost true)
        (fun _ => some ⟨some 101, some 5⟩) exTab1)
      ⟨fun k => match k with | 0 => HResp.fail | _ => HResp.tab opT, 0, []⟩ =
      Except.ok (some opT) := by
  exact (C3_opener_resolver
      (fun k => match k with | 0 => HResp.fail | _ => HResp.tab opT) true
      (fun _ => some ⟨some 101, some 5⟩) exTab1).2.2.2.2.2.2.2.1 101 101 opT rfl
    (fun t h => HResp.noConfusion h) (by decide) rfl

/-- C10: when the native ungroup primitive is present but the host
rejects its invocation (first response), EnsureUngrouped still runs the
whole window-hop fallback: it creates the auxiliary window, moves the
tab into it, moves it back to the original window's tail, and discards
the auxiliary window, completing without an exception. -/
theorem C10_fallback_after_native_failure :
    ∀ (o : Nat → HResp) (tid w aw : Int) (t1 t2 : Tab),
      o 0 = HResp.fail → o 1 = HResp.win aw → o 2 = HResp.tab t1 →
      o 3 = HResp.tab t2 → o 4 = HResp.ok →
      ensureUngrouped (traceHost true) tid w ⟨o, 0, []⟩ =
        (Except.ok (), ⟨o, 5, [Cmd.ungroup tid, Cmd.winCreate,
          Cmd.move tid aw (-1), Cmd.move tid w (-1), Cmd.winRemove aw]⟩) := by
  intro o tid w aw t1 t2 h0 h1 h2 h3 h4
  simp [ensureUngrouped, traceHost, stepT, bindApp, tryJSApp, pureApp, throwJSApp,
    h0, h1, h2, h3, h4]

/-- C10 witness: a concrete schedule rejecting the native ungroup of tab
1 in window 7; the hop through auxiliary window 100 is fully issued. -/
theorem C10_witness :
    ensureUngrouped (traceHost true) 1 7
      ⟨fun k => match k with
        | 0 => HResp.fail | 1 => HResp.win 100 | 2 => HResp.tab opT
        | 3 => HResp.tab opT | _ => HResp.ok, 0, []⟩ =
      (Except.ok (), ⟨fun k => match k with
        | 0 => HResp.fail | 1 => HResp.win 100 | 2 => HResp.tab opT
        | 3 => HResp.tab opT | _ => HResp.ok, 5,
        [Cmd.ungroup 1, Cmd.winCreate, Cmd.move 1 100 (-1), Cmd.move 1 7 (-1),
         Cmd.winRemove 100]⟩) := by
  exact C10_fallback_after_native_failure _ 1 7 100 opT opT rfl rfl rfl rfl rfl

/-- C5 amended: when the initial boundary computation (after the
re-fetch, same-window, native-ungroup path) reports the group empty —
the fold over the host's answer is negative — the orchestrator stops:
the run ends successfully having issued no move command at all.  (The
recomputation inside the retry performs no such check, see the
counterexample.) -/
theorem C5_empty_boundary_stops :
    ∀ (o : Nat → HResp) (nt op fo : Tab) (l : List Tab),
      o 0 = HResp.tab fo → isGrouped fo = true → nt.windowId = op.windowId →
      o 1 = HResp.ok → o 2 = HResp.tabs l → foldMax l < 0 →
      moveDirectlyAfterGroup (traceHost true) nt op ⟨o, 0, []⟩ =
        (Except.ok (), ⟨o, 3, [Cmd.waitStep, Cmd.getTab op.id,
          Cmd.ungroup nt.id, Cmd.queryGW fo.groupId op.windowId]⟩) := by
  intro o nt op fo l h0 hg hw h1 h2 hlt
  simp [moveDirectlyAfterGroup, ensureUngrouped, lastIndexOfGroup, traceHost,
    stepT, logT, bindApp, tryJSApp, pureApp, throwJSApp, h0, hg, hw, h1, h2, hlt]

theorem mvCountAppend (l1 l2 : List Cmd) :
    mvCount (l1 ++ l2) = mvCount l1 + mvCount l2 := List.countP_append _ _ _

theorem addsMvPure (a : α) : addsMv (pure a : M TraceSt α) 0 := by
  intro s
  simp [pureApp]

theorem addsMvThrow : addsMv (throwJS : M TraceSt α) 0 := by
  intro s
  simp [throwJSApp]

theorem addsMvBindLe {m : M TraceSt α} {f : α → M TraceSt β} {n1 n2 n : Nat}
    (hm : addsMv m n1) (hf : ∀ a, addsMv (f a) n2) (hn : n1 + n2 ≤ n) :
    addsMv (m >>= f) n := by
  intro s
  rw [bindApp]
  rcases hms : m s with ⟨r, s1⟩
  have h1 := hm s
  rw [hms] at h1
  cases r with
  | ok a =>
    have h2 := hf a s1
    dsimp only
    dsimp only at h1
    omega
  | error e =>
    dsimp only
    dsimp only at h1
    omega

theorem addsMvTryLe {m h : M TraceSt α} {n1 n2 n : Nat}
    (hm : addsMv m n1) (hh : addsMv h n2) (hn : n1 + n2 ≤ n) :
    addsMv (tryJS m h) n := by
  intro s
  rw [tryJSApp]
  rcases hms : m s with ⟨r, s1⟩
  have h1 := hm s
  rw [hms] at h1
  cases r with
  | ok a =>
    dsimp only
    dsimp only at h1
    omega
  | error e =>
    have h2 := hh s1
    dsimp only
    dsimp only at h1
    omega

theorem addsMvMono {m : M TraceSt α} {n1 n2 : Nat} (hm : addsMv m n1)
    (h : n1 ≤ n2) : addsMv m n2 :=
  fun s => le_trans (hm s) (by omega)

theorem traceGetLogOut (ua : Bool) (tid : Int) (s : TraceSt) :
    (((traceHost ua).getTab tid) s).2.log = s.log ++ [Cmd.getTab tid] := by
  cases ho : s.oracle s.k <;>
    simp [traceHost, stepT, bindApp, ho, throwJSApp, pureApp]

theorem traceQueryGWLogOut (ua : Bool) (g w : Int) (s : TraceSt) :
    (((traceHost ua).queryGW g w) s).2.log = s.log ++ [Cmd.queryGW g w] := by
  cases ho : s.oracle s.k <;>
    simp [traceHost, stepT, bindApp, ho, throwJSApp, pureApp]

theorem traceQueryWLogOut (ua : Bool) (w : Int) (s : TraceSt) :
    (((traceHost ua).queryW w) s).2.log = s.log ++ [Cmd.queryW w] := by
  cases ho : s.oracle s.k <;>
    simp [traceHost, stepT, bindApp, ho, throwJSApp, pureApp]

theorem traceMoveLogOut (ua : Bool) (tid w i : Int) (s : TraceSt) :
    (((traceHost ua).move tid w i) s).2.log = s.log ++ [Cmd.move tid w i] := by
  cases ho : s.oracle s.k <;>
    simp [traceHost, stepT, bindApp, ho, throwJSApp, pureApp]

theorem traceUngroupLogOut (ua : Bool) (tid : Int) (s : TraceSt) :
    (((traceHost ua).ungroup tid) s).2.log = s.log ++ [Cmd.ungroup tid] := by
  cases ho : s.oracle s.k <;>
    simp [traceHost, stepT, bindApp, ho, throwJSApp, pureApp]

theorem traceWinCreateLogOut (ua : Bool) (s : TraceSt) :
    ((traceHost ua).winCreate s).2.log = s.log ++ [Cmd.winCreate] := by
  cases ho : s.oracle s.k <;>
    simp [traceHost, stepT, bindApp, ho, throwJSApp, pureApp]

theorem traceWinRemoveLogOut (ua : Bool) (w : Int) (s : TraceSt) :
    (((traceHost ua).winRemove w) s).2.log = s.log ++ [Cmd.winRemove w] := by
  cases ho : s.oracle s.k <;>
    simp [traceHost, stepT, bindApp, ho, throwJSApp, pureApp]

theorem traceWaitLogOut (ua : Bool) (s : TraceSt) :
    ((traceHost ua).wait s).2.log = s.log ++ [Cmd.waitStep] := rfl

theorem addsMvOfLogOut {m : M TraceSt α} {c : Cmd}
    (hl : ∀ s, ((m s).2).log = s.log ++ [c]) : addsMv m 1 := by
  intro s
  rw [hl s, mvCountAppend]
  have h1 : mvCount [c] ≤ 1 := by
    by_cases hc : isTargetMove c <;>
      simp [mvCount, List.countP_cons, List.countP_nil, hc]
  omega

theorem addsMvOfLogOutSafe {m : M TraceSt α} {c : Cmd}
    (hl : ∀ s, ((m s).2).log = s.log ++ [c]) (hc : isTargetMove c = false) :
    addsMv m 0 := by
  intro s
  rw [hl s, mvCountAppend]
  have h1 : mvCount [c] = 0 := by
    simp [mvCount, List.countP_cons, List.countP_nil, hc]
  omega

theorem addsMvBind0 {m : M TraceSt α} {f : α → M TraceSt β}
    (hm : addsMv m 0) (hf : ∀ a, addsMv (f a) 0) : addsMv (m >>= f) 0 :=
  addsMvBindLe hm hf (by omega)

theorem addsMvBind01 {m : M TraceSt α} {f : α → M TraceSt β}
    (hm : addsMv m 0) (hf : ∀ a, addsMv (f a) 1) : addsMv (m >>= f) 1 :=
  addsMvBindLe hm hf (by omega)

theorem addsMvBind02 {m : M TraceSt α} {f : α → M TraceSt β}
    (hm : addsMv m 0) (hf : ∀ a, addsMv (f a) 2) : addsMv (m >>= f) 2 :=
  addsMvBindLe hm hf (by omega)

theorem addsMvBind10 {m : M TraceSt α} {f : α → M TraceSt β}
    (hm : addsMv m 1) (hf : ∀ a, addsMv (f a) 0) : addsMv (m >>= f) 1 :=
  addsMvBindLe hm hf (by omega)

theorem addsMvTry0 {m h : M TraceSt α}
    (hm : addsMv m 0) (hh : addsMv h 0) : addsMv (tryJS m h) 0 :=
  addsMvTryLe hm hh (by omega)

theorem addsMvTry11 {m h : M TraceSt α}
    (hm : addsMv m 1) (hh : addsMv h 1) : addsMv (tryJS m h) 2 :=
  addsMvTryLe hm hh (by omega)

theorem ensureUngroupedAddsMv (ua : Bool) (tid w : Int) :
    addsMv (ensureUngrouped (traceHost ua) tid w) 0 := by
  unfold ensureUngrouped
  have hop : addsMv (tryJS (do
      let tmpId ← (traceHost ua).winCreate
      let _ ← (traceHost ua).move tid tmpId (-1)
      let _ ← (traceHost ua).move tid w (-1)
      tryJS ((traceHost ua).winRemove tmpId) (pure ())) (pure ())) 0 := by
    refine addsMvTry0 ?_ (addsMvPure _)
    refine addsMvBind0 (addsMvOfLogOutSafe (traceWinCreateLogOut ua) rfl)
      (fun tmpId => ?_)
    refine addsMvBind0 (addsMvOfLogOutSafe (traceMoveLogOut ua tid tmpId (-1)) rfl)
      (fun _ => ?_)
    refine addsMvBind0 (addsMvOfLogOutSafe (traceMoveLogOut ua tid w (-1)) rfl)
      (fun _ => ?_)
    exact addsMvTry0 (addsMvOfLogOutSafe (traceWinRemoveLogOut ua tmpId) rfl)
      (addsMvPure _)
  split
  · refine addsMvBind0 (addsMvTry0
      (addsMvBind0 (addsMvOfLogOutSafe (traceUngroupLogOut ua tid) rfl)
        (fun _ => addsMvPure _))
      (addsMvPure _)) (fun done => ?_)
    split
    · exact addsMvPure _
    · exact addsMvBind0 (addsMvPure _) (fun _ => hop)
  · exact addsMvBind0 (addsMvPure _) (fun _ => hop)

theorem lastIndexAddsMv (ua : Bool) (g w : Int) :
    addsMv (lastIndexOfGroup (traceHost ua) g w) 0 := by
  unfold lastIndexOfGroup
  exact addsMvBind0 (addsMvOfLogOutSafe (traceQueryGWLogOut ua g w) rfl)
    (fun _ => addsMvPure _)

theorem getOpenerAddsMv (ua : Bool) (hist : HistMap) (nt : Tab) :
    addsMv (getOpenerForNewTab (traceHost ua) hist nt) 0 := by
  unfold getOpenerForNewTab
  dsimp only
  have hcont : ∀ y : Option Tab, addsMv ((fun fromOpener =>
      match fromOpener with
      | some t => pure (some t)
      | none =>
        match historyCandidate hist nt with
        | some cid => tryJS (do
            let t ← (traceHost ua).getTab cid
            pure (some t)) (pure none)
        | none => pure none) y) 0 := by
    intro y
    dsimp only
    split
    · exact addsMvPure _
    · split
      · exact addsMvTry0 (addsMvBind0 (addsMvOfLogOutSafe (traceGetLogOut ua _) rfl)
          (fun _ => addsMvPure _)) (addsMvPure _)
      · exact addsMvPure _
  split
  · exact addsMvBind0 (addsMvTry0 (addsMvBind0
      (addsMvOfLogOutSafe (traceGetLogOut ua _) rfl) (fun _ => addsMvPure _))
      (addsMvPure _)) hcont
  · exact addsMvBind0 (addsMvPure _) hcont

theorem moveDirectlyAddsMv (ua : Bool) (nt op : Tab) :
    addsMv (moveDirectlyAfterGroup (traceHost ua) nt op) 2 := by
  unfold moveDirectlyAfterGroup
  dsimp only
  refine addsMvBind02 (addsMvOfLogOutSafe (traceWaitLogOut ua) rfl) (fun _ => ?_)
  refine addsMvBind02 (addsMvTry0 (addsMvBind0
    (addsMvOfLogOutSafe (traceGetLogOut ua _) rfl) (fun _ => addsMvPure _))
    (addsMvPure _)) (fun fo => ?_)
  have hcont : ∀ (f : Tab), addsMv (do
      ensureUngrouped (traceHost ua) nt.id op.windowId
      let e ← lastIndexOfGroup (traceHost ua) f.groupId op.windowId
      if e < 0 then pure PUnit.unit
      else do
        pure PUnit.unit
        let allTabs ← (traceHost ua).queryW op.windowId
        tryJS (do
            let _ ← (traceHost ua).move nt.id op.windowId
              (Int.ofNat allTabs.length ⊓ (e + 1))
            pure ())
          (do
            (traceHost ua).wait
            tryJS (do
                let e2 ← lastIndexOfGroup (traceHost ua) f.groupId op.windowId
                let all2 ← (traceHost ua).queryW op.windowId
                let _ ← (traceHost ua).move nt.id op.windowId
                  (Int.ofNat all2.length ⊓ (e2 + 1))
                pure ())
              (pure ()))) 2 := by
    intro f
    refine addsMvBind02 (ensureUngroupedAddsMv ua nt.id op.windowId) (fun _ => ?_)
    refine addsMvBind02 (lastIndexAddsMv ua f.groupId op.windowId) (fun e => ?_)
    split
    · exact addsMvMono (addsMvPure _) (by omega)
    · refine addsMvBind02 (addsMvPure _) (fun _ => ?_)
      refine addsMvBind02
        (addsMvOfLogOutSafe (traceQueryWLogOut ua op.windowId) rfl)
        (fun allTabs => ?_)
      refine addsMvTry11 ?_ ?_
      · exact addsMvBind10
          (addsMvOfLogOut (traceMoveLogOut ua nt.id op.windowId _))
          (fun _ => addsMvPure _)
      · refine addsMvBind01 (addsMvOfLogOutSafe (traceWaitLogOut ua) rfl)
          (fun _ => ?_)
        refine addsMvTryLe ?_ (addsMvPure _) (show 1 + 0 ≤ 1 by omega)
        refine addsMvBind01 (lastIndexAddsMv ua f.groupId op.windowId)
          (fun e2 => ?_)
        refine addsMvBind01
          (addsMvOfLogOutSafe (traceQueryWLogOut ua op.windowId) rfl)
          (fun all2 => ?_)
        exact addsMvBind10
          (addsMvOfLogOut (traceMoveLogOut ua nt.id op.windowId _))
          (fun _ => addsMvPure _)
  split
  · exact addsMvMono (addsMvPure _) (by omega)
  · split
    · exact addsMvMono (addsMvPure _) (by omega)
    · refine addsMvBind02 (addsMvPure _) (fun _ => ?_)
      split
      · refine addsMvBind02 (addsMvTry0 (addsMvBind0
          (addsMvOfLogOutSafe (traceMoveLogOut ua nt.id op.windowId (-1)) rfl)
          (fun _ => addsMvPure _)) (addsMvPure _)) (fun moved => ?_)
        split
        · exact addsMvMono (addsMvPure _) (by omega)
        · exact addsMvBind02 (addsMvPure _) (fun _ => hcont _)
      · exact addsMvBind02 (addsMvPure _) (fun _ => hcont _)

theorem onCreatedAddsMv (ua : Bool) (hist : HistMap) (pl : Option Tab) :
    addsMv (onCreated (traceHost ua) hist pl) 2 := by
  unfold onCreated
  dsimp only
  split
  · exact addsMvMono (addsMvPure _) (by omega)
  · refine addsMvBind02 (getOpenerAddsMv ua hist _) (fun opener => ?_)
    split
    · exact addsMvMono (addsMvPure _) (by omega)
    · split
      · exact addsMvMono (addsMvPure _) (by omega)
      · exact addsMvBind02 (addsMvPure _) (fun _ => moveDirectlyAddsMv ua _ _)

set_option maxHeartbeats 1000000 in
/-- C6: when the first placement move is rejected, the orchestrator waits
the stabilization interval once, recomputes the boundary and tab count
fresh, recomputes the target, and attempts exactly one further move —
the final command log is exactly the initial sequence plus
wait/boundary/count/move, ending successfully whatever the host answers
to the second move; moreover no run of the creation handler ever issues
more than two placement moves. -/
theorem C6_retry_policy :
    (∀ (o : Nat → HResp) (nt op fo : Tab) (l1 l2 m1 m2 : List Tab),
      o 0 = HResp.tab fo → isGrouped fo = true → nt.windowId = op.windowId →
      o 1 = HResp.ok → o 2 = HResp.tabs l1 → ¬ foldMax l1 < 0 →
      o 3 = HResp.tabs l2 → o 4 = HResp.fail → o 5 = HResp.tabs m1 →
      o 6 = HResp.tabs m2 →
      moveDirectlyAfterGroup (traceHost true) nt op ⟨o, 0, []⟩ =
        (Except.ok (), ⟨o, 8, [Cmd.waitStep, Cmd.getTab op.id, Cmd.ungroup nt.id,
          Cmd.queryGW fo.groupId op.windowId, Cmd.queryW op.windowId,
          Cmd.move nt.id op.windowId (min (Int.ofNat l2.length) (foldMax l1 + 1)),
          Cmd.waitStep, Cmd.queryGW fo.groupId op.windowId, Cmd.queryW op.windowId,
          Cmd.move nt.id op.windowId (min (Int.ofNat m2.length) (foldMax m1 + 1))]⟩))
    ∧ (∀ (ua : Bool) (o : Nat → HResp) (hist : HistMap) (pl : Option Tab),
        mvCount (stOf (onCreated (traceHost ua) hist pl) ⟨o, 0, []⟩).log ≤ 2) := by
  constructor
  · intro o nt op fo l1 l2 m1 m2 h0 hg hw h1 h2 hfl h3 h4 h5 h6
    cases h7 : o 7 <;>
    simp [moveDirectlyAfterGroup, ensureUngrouped, lastIndexOfGroup, traceHost,
      stepT, logT, bindApp, tryJSApp, pureApp, throwJSApp,
      h0, hg, hw, h1, h2, hfl, h3, h4, h5, h6, h7]
  · intro ua o hist pl
    have h := onCreatedAddsMv ua hist pl ⟨o, 0, []⟩
    simpa [stOf, mvCount, List.countP_nil] using h

/-- C6 witness: on `c6oracle` the first move (to index 2) is rejected and
exactly one retry move (again to index 2) follows, after a fresh boundary
query and tab-count query, ending successfully. -/
theorem C6_witness :
    moveDirectlyAfterGroup (traceHost true) exTab1 opT ⟨c6oracle, 0, []⟩ =
      (Except.ok (), ⟨c6oracle, 8, [Cmd.waitStep, Cmd.getTab 101,
        Cmd.ungroup 200, Cmd.queryGW 5 7, Cmd.queryW 7, Cmd.move 200 7 2,
        Cmd.waitStep, Cmd.queryGW 5 7, Cmd.queryW 7, Cmd.move 200 7 2]⟩) := by
  exact C6_retry_policy.1 c6oracle exTab1 opT opT [opT]
    [⟨100, 7, -1, 0, none⟩, ⟨101, 7, 5, 1, none⟩, ⟨200, 7, -1, 2, none⟩]
    [opT] [⟨101, 7, 5, 1, none⟩, ⟨200, 7, -1, 2, none⟩]
    rfl rfl rfl rfl rfl (by decide) rfl rfl rfl rfl

/-- C5 witness: with the opener grouped, the ungroup accepted, and the
boundary query answering the empty list, the run stops after the
boundary query with no move command. -/
theorem C5_witness :
    moveDirectlyAfterGroup (traceHost true) exTab1 opT
      ⟨fun k => match k with
        | 0 => HResp.tab opT | 1 => HResp.ok | _ => HResp.tabs [], 0, []⟩ =
      (Except.ok (), ⟨fun k => match k with
        | 0 => HResp.tab opT | 1 => HResp.ok | _ => HResp.tabs [], 3,
        [Cmd.waitStep, Cmd.getTab 101, Cmd.ungroup 200, Cmd.queryGW 5 7]⟩) := by
  exact C5_empty_boundary_stops _ exTab1 opT opT [] rfl rfl rfl rfl rfl
    (by decide)

theorem noThrowPure (a : α) : noThrow (pure a : M σ α) := by
  intro s h
  cases h

theorem noThrowTry {m h : M σ α} (hh : noThrow h) : noThrow (tryJS m h) := by
  intro s
  rw [tryJSApp]
  rcases hms : m s with ⟨r, s1⟩
  cases r with
  | ok a => intro hc; cases hc
  | error e => exact hh s1

theorem noThrowBind {m : M σ α} {f : α → M σ β}
    (hm : noThrow m) (hf : ∀ a, noThrow (f a)) : noThrow (m >>= f) := by
  intro s
  rw [bindApp]
  rcases hms : m s with ⟨r, s1⟩
  cases r with
  | ok a => exact hf a s1
  | error e =>
    have := hm s
    rw [hms] at this
    cases e
    exact absurd rfl this

theorem lastQOfNoThrow {m : M TraceSt α} (h : noThrow m) : lastQ m :=
  fun s he => absurd he (h s)

theorem lastQBind {m : M TraceSt α} {f : α → M TraceSt β}
    (hm : lastQ m) (hf : ∀ a, lastQ (f a)) : lastQ (m >>= f) := by
  intro s
  rw [bindApp]
  rcases hms : m s with ⟨r, s1⟩
  cases r with
  | ok a => exact hf a s1
  | error e =>
    intro _
    cases e
    have h1 := hm s
    rw [hms] at h1
    exact h1 rfl

theorem queryGWLastQ (ua : Bool) (g w : Int) :
    lastQ ((traceHost ua).queryGW g w) := by
  intro s he
  rw [traceQueryGWLogOut]
  exact Or.inl ⟨g, w, List.getLast?_concat _⟩

theorem queryWLastQ (ua : Bool) (w : Int) :
    lastQ ((traceHost ua).queryW w) := by
  intro s he
  rw [traceQueryWLogOut]
  exact Or.inr ⟨w, List.getLast?_concat _⟩

theorem noThrowWait (ua : Bool) : noThrow ((traceHost ua).wait) := by
  intro s h
  cases h

theorem lastIndexLastQ (ua : Bool) (g w : Int) :
    lastQ (lastIndexOfGroup (traceHost ua) g w) := by
  unfold lastIndexOfGroup
  exact lastQBind (queryGWLastQ ua g w) (fun _ => lastQOfNoThrow (noThrowPure _))

theorem ensureUngroupedNoThrow (ua : Bool) (tid w : Int) :
    noThrow (ensureUngrouped (traceHost ua) tid w) := by
  unfold ensureUngrouped
  split
  · refine noThrowBind (noThrowTry (noThrowPure _)) (fun done => ?_)
    split
    · exact noThrowPure _
    · exact noThrowBind (noThrowPure _) (fun _ => noThrowTry (noThrowPure _))
  · exact noThrowBind (noThrowPure _) (fun _ => noThrowTry (noThrowPure _))

theorem getOpenerNoThrow (ua : Bool) (hist : HistMap) (nt : Tab) :
    noThrow (getOpenerForNewTab (traceHost ua) hist nt) := by
  unfold getOpenerForNewTab
  dsimp only
  have hcont : ∀ y : Option Tab, noThrow ((fun fromOpener =>
      match fromOpener with
      | some t => pure (some t)
      | none =>
        match historyCandidate hist nt with
        | some cid => tryJS (do
            let t ← (traceHost ua).getTab cid
            pure (some t)) (pure none)
        | none => pure none) y) := by
    intro y
    dsimp only
    split
    · exact noThrowPure _
    · split
      · exact noThrowTry (noThrowPure _)
      · exact noThrowPure _
  split
  · exact noThrowBind (noThrowTry (noThrowPure _)) hcont
  · exact noThrowBind (noThrowPure _) hcont

theorem moveDirectlyLastQ (ua : Bool) (nt op : Tab) :
    lastQ (moveDirectlyAfterGroup (traceHost ua) nt op) := by
  unfold moveDirectlyAfterGroup
  dsimp only
  refine lastQBind (lastQOfNoThrow (noThrowWait ua)) (fun _ => ?_)
  refine lastQBind (lastQOfNoThrow (noThrowTry (noThrowPure _))) (fun fo => ?_)
  have hcont : ∀ (f : Tab), lastQ (do
      ensureUngrouped (traceHost ua) nt.id op.windowId
      let e ← lastIndexOfGroup (traceHost ua) f.groupId op.windowId
      if e < 0 then pure PUnit.unit
      else do
        pure PUnit.unit
        let allTabs ← (traceHost ua).queryW op.windowId
        tryJS (do
            let _ ← (traceHost ua).move nt.id op.windowId
              (Int.ofNat allTabs.length ⊓ (e + 1))
            pure ())
          (do
            (traceHost ua).wait
            tryJS (do
                let e2 ← lastIndexOfGroup (traceHost ua) f.groupId op.windowId
                let all2 ← (traceHost ua).queryW op.windowId
                let _ ← (traceHost ua).move nt.id op.windowId
                  (Int.ofNat all2.length ⊓ (e2 + 1))
                pure ())
              (pure ()))) := by
    intro f
    refine lastQBind (lastQOfNoThrow (ensureUngroupedNoThrow ua nt.id op.windowId))
      (fun _ => ?_)
    refine lastQBind (lastIndexLastQ ua f.groupId op.windowId) (fun e => ?_)
    split
    · exact lastQOfNoThrow (noThrowPure _)
    · refine lastQBind (lastQOfNoThrow (noThrowPure _)) (fun _ => ?_)
      refine lastQBind (queryWLastQ ua op.windowId) (fun allTabs => ?_)
      refine lastQOfNoThrow (noThrowTry ?_)
      exact noThrowBind (noThrowWait ua) (fun _ => noThrowTry (noThrowPure _))
  split
  · exact lastQOfNoThrow (noThrowPure _)
  · split
    · exact lastQOfNoThrow (noThrowPure _)
    · refine lastQBind (lastQOfNoThrow (noThrowPure _)) (fun _ => ?_)
      split
      · refine lastQBind (lastQOfNoThrow (noThrowTry (noThrowPure _)))
          (fun moved => ?_)
        split
        · exact lastQOfNoThrow (noThrowPure _)
        · exact lastQBind (lastQOfNoThrow (noThrowPure _)) (fun _ => hcont _)
      · exact lastQBind (lastQOfNoThrow (noThrowPure _)) (fun _ => hcont _)

theorem onCreatedLastQ (ua : Bool) (hist : HistMap) (pl : Option Tab) :
    lastQ (onCreated (traceHost ua) hist pl) := by
  unfold onCreated
  dsimp only
  split
  · exact lastQOfNoThrow (noThrowPure _)
  · refine lastQBind (lastQOfNoThrow (getOpenerNoThrow ua hist _)) (fun opener => ?_)
    split
    · exact lastQOfNoThrow (noThrowPure _)
    · split
      · exact lastQOfNoThrow (noThrowPure _)
      · exact lastQBind (lastQOfNoThrow (noThrowPure _))
          (fun _ => moveDirectlyLastQ ua _ _)

/-- C9 amended: host failures of fetches, moves, ungroups and window
operations are absorbed (their uses are guarded), but the initial
boundary query and tab-count query are unprotected — whenever the
creation handler ends with an escaped exception, the last host call it
issued was one of the two tab queries. -/
theorem C9_escape_is_query :
    ∀ (ua : Bool) (o : Nat → HResp) (hist : HistMap) (pl : Option Tab),
      resOf (onCreated (traceHost ua) hist pl) ⟨o, 0, []⟩ = Except.error () →
      endsWithQuery (stOf (onCreated (traceHost ua) hist pl) ⟨o, 0, []⟩).log :=
  fun ua o hist pl h => onCreatedLastQ ua hist pl ⟨o, 0, []⟩ h

/-- C9 amended witness: a run where the host rejects the initial
boundary query indeed ends with that query logged last. -/
theorem C9_escape_witness :
    endsWithQuery (stOf (onCreated (traceHost true) histEmpty (some exTab1))
      ⟨fun k => match k with
        | 0 => HResp.tab opT | 1 => HResp.tab opT | 2 => HResp.ok
        | _ => HResp.fail, 0, []⟩).log := by
  exact C9_escape_is_query true
    (fun k => match k with
      | 0 => HResp.tab opT | 1 => HResp.tab opT | 2 => HResp.ok
      | _ => HResp.fail) histEmpty (some exTab1) rfl

theorem callWOk {s : WSt} {f : World → Option (α × World)} {a : α} {W2 : World}
    (c : Cmd) (hf : s.failAt s.k = false) (h : f s.world = some (a, W2)) :
    callW c f s =
      (Except.ok a, { s with world := W2, k := s.k + 1, log := s.log ++ [c] }) := by
  simp [callW, bumpW, hf, h]

theorem callWFail {s : WSt} {f : World → Option (α × World)} (c : Cmd)
    (hf : s.failAt s.k = true) :
    callW c f s =
      (Except.error (), { s with k := s.k + 1, log := s.log ++ [c] }) := by
  simp [callW, bumpW, hf]

theorem callWNone {s : WSt} {f : World → Option (α × World)} (c : Cmd)
    (hf : s.failAt s.k = false) (h : f s.world = none) :
    callW c f s =
      (Except.error (), { s with k := s.k + 1, log := s.log ++ [c] }) := by
  simp [callW, bumpW, hf, h]

theorem wGetOk {s : WSt} {t : Tab} (ua : Bool) (tid : Int)
    (hf : s.failAt s.k = false) (h : findTab s.world tid = some t) :
    (worldHost ua).getTab tid s =
      (Except.ok t, { s with k := s.k + 1, log := s.log ++ [Cmd.getTab tid] }) := by
  show callW (Cmd.getTab tid) (fun W => (findTab W tid).map (fun t => (t, W))) s = _
  rw [callWOk (Cmd.getTab tid) hf (by rw [h]; rfl)]

theorem wGetFail {s : WSt} (ua : Bool) (tid : Int) (hf : s.failAt s.k = true) :
    (worldHost ua).getTab tid s =
      (Except.error (), { s with k := s.k + 1, log := s.log ++ [Cmd.getTab tid] }) := by
  show callW (Cmd.getTab tid) (fun W => (findTab W tid).map (fun t => (t, W))) s = _
  rw [callWFail (Cmd.getTab tid) hf]

theorem wGetNone {s : WSt} (ua : Bool) (tid : Int)
    (hf : s.failAt s.k = false) (h : findTab s.world tid = none) :
    (worldHost ua).getTab tid s =
      (Except.error (), { s with k := s.k + 1, log := s.log ++ [Cmd.getTab tid] }) := by
  show callW (Cmd.getTab tid) (fun W => (findTab W tid).map (fun t => (t, W))) s = _
  rw [callWNone (Cmd.getTab tid) hf (by rw [h]; rfl)]

theorem wQueryGWOk {s : WSt} (ua : Bool) (g w : Int) (hf : s.failAt s.k = false) :
    (worldHost ua).queryGW g w s =
      (Except.ok (groupSnaps s.world g w),
        { s with k := s.k + 1, log := s.log ++ [Cmd.queryGW g w] }) := by
  show callW (Cmd.queryGW g w)
    (fun W => some ((snapWin w (winList W w)).filter (fun t => t.groupId = g), W)) s = _
  exact callWOk (Cmd.queryGW g w) hf rfl

theorem wQueryWOk {s : WSt} (ua : Bool) (w : Int) (hf : s.failAt s.k = false) :
    (worldHost ua).queryW w s =
      (Except.ok (snapWin w (winList s.world w)),
        { s with k := s.k + 1, log := s.log ++ [Cmd.queryW w] }) := by
  show callW (Cmd.queryW w) (fun W => some (snapWin w (winList W w), W)) s = _
  exact callWOk (Cmd.queryW w) hf rfl

theorem wMoveOk {s : WSt} {t : Tab} {W2 : World} (ua : Bool) (tid w i : Int)
    (hf : s.failAt s.k = false) (h : worldMove s.world tid w i = some (t, W2)) :
    (worldHost ua).move tid w i s =
      (Except.ok t,
        { s with world := W2, k := s.k + 1, log := s.log ++ [Cmd.move tid w i] }) := by
  show callW (Cmd.move tid w i) (fun W => worldMove W tid w i) s = _
  exact callWOk (Cmd.move tid w i) hf h

theorem wUngroupOk {s : WSt} {W2 : World} (ua : Bool) (tid : Int)
    (hf : s.failAt s.k = false) (h : worldUngroup s.world tid = some W2) :
    (worldHost ua).ungroup tid s =
      (Except.ok (),
        { s with world := W2, k := s.k + 1, log := s.log ++ [Cmd.ungroup tid] }) := by
  show callW (Cmd.ungroup tid)
    (fun W => (worldUngroup W tid).map (fun W2 => ((), W2))) s = _
  exact callWOk (Cmd.ungroup tid) hf (by rw [h]; rfl)

theorem wWaitApp (ua : Bool) (s : WSt) :
    (worldHost ua).wait s =
      (Except.ok (), { s with log := s.log ++ [Cmd.waitStep] }) := rfl

theorem keepsWorldPure (a : α) : keepsWorld (pure a : M WSt α) := fun s => rfl

theorem keepsWorldBind {m : M WSt α} {f : α → M WSt β}
    (hm : keepsWorld m) (hf : ∀ a, keepsWorld (f a)) : keepsWorld (m >>= f) := by
  intro s
  rw [bindApp]
  rcases hms : m s with ⟨r, s1⟩
  have h1 := hm s
  rw [hms] at h1
  cases r with
  | ok a => exact (hf a s1).trans h1
  | error e => exact h1

theorem keepsWorldTry {m h : M WSt α}
    (hm : keepsWorld m) (hh : keepsWorld h) : keepsWorld (tryJS m h) := by
  intro s
  rw [tryJSApp]
  rcases hms : m s with ⟨r, s1⟩
  have h1 := hm s
  rw [hms] at h1
  cases r with
  | ok a => exact h1
  | error e => exact (hh s1).trans h1

theorem keepsWorldGet (ua : Bool) (tid : Int) :
    keepsWorld ((worldHost ua).getTab tid) := by
  intro s
  show ((callW (Cmd.getTab tid) (fun W => (findTab W tid).map (fun t => (t, W))) s).2).world = s.world
  by_cases hf : s.failAt s.k
  · rw [callWFail _ hf]
  · cases h : findTab s.world tid with
    | none => rw [callWNone _ (by simpa using hf) (by rw [h]; rfl)]
    | some t => rw [callWOk _ (by simpa using hf) (by rw [h]; rfl)]

theorem onlyGetsPure (a : α) : onlyGets (pure a : M WSt α) := fun s c hc => Or.inl hc

theorem onlyGetsBind {m : M WSt α} {f : α → M WSt β}
    (hm : onlyGets m) (hf : ∀ a, onlyGets (f a)) : onlyGets (m >>= f) := by
  intro s c
  rw [bindApp]
  rcases hms : m s with ⟨r, s1⟩
  have h1 := hm s c
  rw [hms] at h1
  cases r with
  | ok a =>
    intro hc
    rcases hf a s1 c hc with h2 | h2
    · exact h1 h2
    · exact Or.inr h2
  | error e => exact h1

theorem onlyGetsTry {m h : M WSt α}
    (hm : onlyGets m) (hh : onlyGets h) : onlyGets (tryJS m h) := by
  intro s c
  rw [tryJSApp]
  rcases hms : m s with ⟨r, s1⟩
  have h1 := hm s c
  rw [hms] at h1
  cases r with
  | ok a => exact h1
  | error e =>
    intro hc
    rcases hh s1 c hc with h2 | h2
    · exact h1 h2
    · exact Or.inr h2

theorem onlyGetsGet (ua : Bool) (tid : Int) :
    onlyGets ((worldHost ua).getTab tid) := by
  intro s c
  show c ∈ ((callW (Cmd.getTab tid) (fun W => (findTab W tid).map (fun t => (t, W))) s).2).log → _
  have hlog : ((callW (Cmd.getTab tid)
      (fun W => (findTab W tid).map (fun t => (t, W))) s).2).log =
      s.log ++ [Cmd.getTab tid] := by
    by_cases hf : s.failAt s.k
    · rw [callWFail _ hf]
    · cases h : findTab s.world tid with
      | none => rw [callWNone _ (by simpa using hf) (by rw [h]; rfl)]
      | some t => rw [callWOk _ (by simpa using hf) (by rw [h]; rfl)]
  rw [hlog]
  intro hc
  rcases List.mem_append.mp hc with h2 | h2
  · exact Or.inl h2
  · exact Or.inr ⟨tid, List.mem_singleton.mp h2⟩

theorem getOpenerKeepsWorld (ua : Bool) (hist : HistMap) (nt : Tab) :
    keepsWorld (getOpenerForNewTab (worldHost ua) hist nt) := by
  unfold getOpenerForNewTab
  dsimp only
  have hcont : ∀ y : Option Tab, keepsWorld ((fun fromOpener =>
      match fromOpener with
      | some t => pure (some t)
      | none =>
        match historyCandidate hist nt with
        | some cid => tryJS (do
            let t ← (worldHost ua).getTab cid
            pure (some t)) (pure none)
        | none => pure none) y) := by
    intro y
    dsimp only
    split
    · exact keepsWorldPure _
    · split
      · exact keepsWorldTry (keepsWorldBind (keepsWorldGet ua _)
          (fun _ => keepsWorldPure _)) (keepsWorldPure _)
      · exact keepsWorldPure _
  split
  · exact keepsWorldBind (keepsWorldTry (keepsWorldBind (keepsWorldGet ua _)
      (fun _ => keepsWorldPure _)) (keepsWorldPure _)) hcont
  · exact keepsWorldBind (keepsWorldPure _) hcont

theorem getOpenerOnlyGets (ua : Bool) (hist : HistMap) (nt : Tab) :
    onlyGets (getOpenerForNewTab (worldHost ua) hist nt) := by
  unfold getOpenerForNewTab
  dsimp only
  have hcont : ∀ y : Option Tab, onlyGets ((fun fromOpener =>
      match fromOpener with
      | some t => pure (some t)
      | none =>
        match historyCandidate hist nt with
        | some cid => tryJS (do
            let t ← (worldHost ua).getTab cid
            pure (some t)) (pure none)
        | none => pure none) y) := by
    intro y
    dsimp only
    split
    · exact onlyGetsPure _
    · split
      · exact onlyGetsTry (onlyGetsBind (onlyGetsGet ua _)
          (fun _ => onlyGetsPure _)) (onlyGetsPure _)
      · exact onlyGetsPure _
  split
  · exact onlyGetsBind (onlyGetsTry (onlyGetsBind (onlyGetsGet ua _)
      (fun _ => onlyGetsPure _)) (onlyGetsPure _)) hcont
  · exact onlyGetsBind (onlyGetsPure _) hcont

/-- C2: when the resolved opener is ungrouped — in the resolved snapshot
(first part) or in the re-fetched live record, including a failed
re-fetch (second part) — the handler leaves the world untouched and
issues no move and no ungroup command; in particular the new tab keeps
its window and index. -/
theorem C2_ungrouped_opener_noop :
    (∀ (ua : Bool) (W : World) (ff : Nat → Bool) (hist : HistMap) (nt op : Tab),
      resOf (getOpenerForNewTab (worldHost ua) hist nt) ⟨W, ff, 0, []⟩ =
        Except.ok (some op) →
      isGrouped op = false →
      (stOf (onCreated (worldHost ua) hist (some nt)) ⟨W, ff, 0, []⟩).world = W
      ∧ ∀ c ∈ (stOf (onCreated (worldHost ua) hist (some nt)) ⟨W, ff, 0, []⟩).log,
          isMoveOrUngroup c = false)
    ∧ (∀ (ua : Bool) (W : World) (ff : Nat → Bool) (nt op : Tab),
      (∀ fo, findTab W op.id = some fo → isGrouped fo = false) →
      moveDirectlyAfterGroup (worldHost ua) nt op ⟨W, ff, 0, []⟩ =
        (Except.ok (), ⟨W, ff, 1, [Cmd.waitStep, Cmd.getTab op.id]⟩)) := by
  constructor
  · intro ua W ff hist nt op hres hgro
    have hks := getOpenerKeepsWorld ua hist nt ⟨W, ff, 0, []⟩
    have hog := getOpenerOnlyGets ua hist nt ⟨W, ff, 0, []⟩
    unfold resOf at hres
    rcases hr : getOpenerForNewTab (worldHost ua) hist nt ⟨W, ff, 0, []⟩ with ⟨r, s1⟩
    rw [hr] at hres hks
    dsimp only at hres hks
    subst hres
    have hfin : stOf (onCreated (worldHost ua) hist (some nt)) ⟨W, ff, 0, []⟩ = s1 := by
      unfold stOf onCreated
      dsimp only
      rw [bindApp, hr]
      simp [hgro, pureApp]
    rw [hfin]
    refine ⟨hks, fun c hc => ?_⟩
    have hog2 := hog c
    rw [hr] at hog2
    dsimp only at hog2
    rcases hog2 hc with h2 | ⟨i, h2⟩
    · cases h2
    · rw [h2]
      rfl
  · intro ua W ff nt op hun
    by_cases hf : ff 0 = true
    · simp [moveDirectlyAfterGroup, worldHost, callW, bumpW, bindApp, tryJSApp,
        pureApp, throwJSApp, hf]
    · have hf2 : ff 0 = false := by
        cases h : ff 0
        · rfl
        · exact absurd h hf
      cases hft : findTab W op.id with
      | none =>
        simp [moveDirectlyAfterGroup, worldHost, callW, bumpW, bindApp, tryJSApp,
          pureApp, throwJSApp, hf2, hft]
      | some fo =>
        have hfo := hun fo hft
        simp [moveDirectlyAfterGroup, worldHost, callW, bumpW, bindApp, tryJSApp,
          pureApp, throwJSApp, hf2, hft, hfo]

/-- C2 witness: in scenario-2 style (`exW1` with the opener re-pointed at
the ungrouped tab 100), both parts apply: the handler is a no-op on the
world and logs only fetches, and the placement routine exits right after
the re-fetch. -/
theorem C2_witness :
    ((stOf (onCreated (worldHost true) histEmpty
        (some ⟨200, 7, -1, 4, some 100⟩)) ⟨exW1, noFail, 0, []⟩).world = exW1
      ∧ ∀ c ∈ (stOf (onCreated (worldHost true) histEmpty
          (some ⟨200, 7, -1, 4, some 100⟩)) ⟨exW1, noFail, 0, []⟩).log,
          isMoveOrUngroup c = false)
    ∧ moveDirectlyAfterGroup (worldHost true) ⟨200, 7, -1, 4, some 100⟩
        ⟨100, 7, -1, 0, none⟩ ⟨exW1, noFail, 0, []⟩ =
      (Except.ok (), ⟨exW1, noFail, 1, [Cmd.waitStep, Cmd.getTab 100]⟩) := by
  constructor
  · exact C2_ungrouped_opener_noop.1 true exW1 noFail histEmpty
      ⟨200, 7, -1, 4, some 100⟩ ⟨100, 7, -1, 0, none⟩ (by rfl) (by decide)
  · exact C2_ungrouped_opener_noop.2 true exW1 noFail
      ⟨200, 7, -1, 4, some 100⟩ ⟨100, 7, -1, 0, none⟩
      (by intro fo hfo; rw [show findTab exW1 (100 : Int) =
        some ⟨100, 7, -1, 0, none⟩ from rfl] at hfo; cases hfo; rfl)

theorem snapFromLength (w : Int) (i : Nat) (ts : List TRec) :
    (snapFrom w i ts).length = ts.length := by
  induction ts generalizing i with
  | nil => rfl
  | cons r ts ih =>
    simp only [snapFrom, List.length_cons, ih]

theorem snapWinLength (w : Int) (ts : List TRec) :
    (snapWin w ts).length = ts.length := snapFromLength w 0 ts

theorem snapFromIds (w : Int) (i : Nat) (ts : List TRec) :
    (snapFrom w i ts).map (fun t => t.id) = idsOf ts := by
  induction ts generalizing i with
  | nil => rfl
  | cons r ts ih =>
    simp only [snapFrom, List.map_cons, idsOf]
    rw [show (idsOf ts = ts.map (fun r => r.id)) from rfl] at ih
    rw [ih]

theorem memSnapFromOfGet {ts : List TRec} {j : Nat} {r : TRec} (w : Int) (i : Nat)
    (h : ts.get? j = some r) :
    (⟨r.id, w, r.groupId, Int.ofNat (i + j), r.openerTabId⟩ : Tab) ∈ snapFrom w i ts := by
  induction ts generalizing i j with
  | nil => cases h
  | cons x ts ih =>
    cases j with
    | zero =>
      injection h with h1
      subst h1
      rw [Nat.add_zero]
      exact List.mem_cons_self _ _
    | succ j =>
      have h2 : i + (j + 1) = (i + 1) + j := by omega
      rw [h2]
      exact List.mem_cons_of_mem _ (ih (i + 1) h)

theorem ofMemSnapFrom {t : Tab} {ts : List TRec} {w : Int} {i : Nat}
    (h : t ∈ snapFrom w i ts) :
    ∃ j r, ts.get? j = some r ∧
      t = ⟨r.id, w, r.groupId, Int.ofNat (i + j), r.openerTabId⟩ := by
  induction ts generalizing i with
  | nil => cases h
  | cons x ts ih =>
    rcases List.mem_cons.mp h with h1 | h1
    · exact ⟨0, x, rfl, by rw [Nat.add_zero]; exact h1⟩
    · rcases ih h1 with ⟨j, r, hg, ht⟩
      refine ⟨j + 1, r, hg, ?_⟩
      rw [show i + (j + 1) = (i + 1) + j from by omega]
      exact ht

theorem memAllSnapsIff {t : Tab} {W : World} :
    t ∈ allSnaps W ↔ ∃ p ∈ W.wins, t ∈ snapWin p.1 p.2 := by
  unfold allSnaps
  rw [List.mem_flatten]
  constructor
  · rintro ⟨l, hl, ht⟩
    rcases List.mem_map.mp hl with ⟨p, hp, hpe⟩
    exact ⟨p, hp, hpe ▸ ht⟩
  · rintro ⟨p, hp, ht⟩
    exact ⟨snapWin p.1 p.2, List.mem_map.mpr ⟨p, hp, rfl⟩, ht⟩

theorem allSnapsIds (W : World) :
    (allSnaps W).map (fun t => t.id) = allIds W := by
  unfold allSnaps allIds
  rw [List.map_flatten, List.map_map]
  congr 1
  apply List.map_congr_left
  intro p hp
  exact snapFromIds p.1 0 p.2

theorem findEqSomeOfUnique {l : List α} {p : α → Bool} {a : α}
    (ha : a ∈ l) (hp : p a = true) (hu : ∀ b ∈ l, p b = true → b = a) :
    l.find? p = some a := by
  induction l with
  | nil => cases ha
  | cons x l ih =>
    by_cases hx : p x = true
    · rw [List.find?_cons_of_pos _ hx, hu x (List.mem_cons_self x l) hx]
    · rw [List.find?_cons_of_neg _ hx]
      rcases List.mem_cons.mp ha with h1 | h1
      · subst h1
        exact absurd hp hx
      · exact ih h1 (fun b hb hpb => hu b (List.mem_cons_of_mem x hb) hpb)

theorem snapIdsNodup {W : World} (hW : WF W) :
    ((allSnaps W).map (fun t => t.id)).Nodup := by
  rw [allSnapsIds]
  exact hW.2.1

theorem findTabOfMem {W : World} {w : Int} {l : List TRec} {j : Nat} {r : TRec}
    (hW : WF W) (hwl : (w, l) ∈ W.wins) (hj : l.get? j = some r) :
    findTab W r.id = some ⟨r.id, w, r.groupId, Int.ofNat j, r.openerTabId⟩ := by
  have hmem : (⟨r.id, w, r.groupId, Int.ofNat j, r.openerTabId⟩ : Tab) ∈ allSnaps W := by
    apply memAllSnapsIff.mpr
    refine ⟨(w, l), hwl, ?_⟩
    have h1 := memSnapFromOfGet w 0 hj
    rw [Nat.zero_add] at h1
    exact h1
  apply findEqSomeOfUnique hmem (by simp)
  intro b hb hpb
  have hinj := List.inj_on_of_nodup_map (snapIdsNodup hW)
  exact hinj hb hmem (by simpa using hpb)

theorem findTabSpec {W : World} {tid : Int} {t : Tab} (h : findTab W tid = some t) :
    t.id = tid ∧ ∃ w l j r, (w, l) ∈ W.wins ∧ l.get? j = some r ∧
      t = ⟨r.id, w, r.groupId, Int.ofNat j, r.openerTabId⟩ := by
  have hmem := List.mem_of_find?_eq_some h
  have hp := List.find?_some h
  refine ⟨by simpa using hp, ?_⟩
  rcases memAllSnapsIff.mp hmem with ⟨p, hp2, hsnap⟩
  rcases ofMemSnapFrom hsnap with ⟨j, r, hg, ht⟩
  rw [Nat.zero_add] at ht
  exact ⟨p.1, p.2, j, r, hp2, hg, ht⟩

theorem winFindOfMem {W : World} {w : Int} {l : List TRec}
    (hW : WF W) (h : (w, l) ∈ W.wins) :
    W.wins.find? (fun p => p.1 = w) = some (w, l) := by
  apply findEqSomeOfUnique h (by simp)
  intro b hb hpb
  have hinj := List.inj_on_of_nodup_map hW.1
  exact hinj hb h (by simpa using hpb)

theorem winListOfMem {W : World} {w : Int} {l : List TRec}
    (hW : WF W) (h : (w, l) ∈ W.wins) : winList W w = l := by
  unfold winList
  rw [winFindOfMem hW h]
  rfl

theorem winExistsOfMem {W : World} {w : Int} {l : List TRec}
    (hW : WF W) (h : (w, l) ∈ W.wins) : winExists W w = true := by
  unfold winExists
  rw [winFindOfMem hW h]
  rfl

theorem findMapKeyPres {f : Int × List TRec → Int × List TRec}
    (hf : ∀ p, (f p).1 = p.1) (l : List (Int × List TRec)) (w : Int) :
    (l.map f).find? (fun p => p.1 = w) = (l.find? (fun p => p.1 = w)).map f := by
  induction l with
  | nil => rfl
  | cons x l ih =>
    by_cases hx : x.1 = w
    · rw [List.map_cons, List.find?_cons_of_pos _ (by simp [hf x, hx]),
        List.find?_cons_of_pos _ (by simp [hx])]
      rfl
    · rw [List.map_cons, List.find?_cons_of_neg _ (by simp [hf x, hx]),
        List.find?_cons_of_neg _ (by simp [hx]), ih]

theorem mapKeysEq {f : Int × List TRec → Int × List TRec}
    (hf : ∀ p, (f p).1 = p.1) (l : List (Int × List TRec)) :
    (l.map f).map Prod.fst = l.map Prod.fst := by
  rw [List.map_map]
  exact List.map_congr_left (fun p _ => hf p)

theorem winListMap {W : World} {w : Int} {l : List TRec} {n : Int}
    {f : Int × List TRec → Int × List TRec} (hf : ∀ p, (f p).1 = p.1)
    (hW : WF W) (h : (w, l) ∈ W.wins) :
    winList ⟨W.wins.map f, n⟩ w = (f (w, l)).2 := by
  unfold winList
  show (((W.wins.map f).find? (fun p => p.1 = w)).map Prod.snd).getD [] = _
  rw [findMapKeyPres hf, winFindOfMem hW h]
  rfl

theorem idsOfFilter (l : List TRec) (tid : Int) :
    idsOf (l.filter (fun t => t.id ≠ tid)) = (idsOf l).filter (fun x => x ≠ tid) := by
  induction l with
  | nil => rfl
  | cons x l ih =>
    by_cases hx : x.id = tid
    · simpa [idsOf, List.filter_cons, hx] using ih
    · simpa [idsOf, List.filter_cons, hx] using ih

theorem notMemIdsFilter (l : List TRec) (tid : Int) :
    tid ∉ idsOf (l.filter (fun t => t.id ≠ tid)) := by
  intro h
  rcases List.mem_map.mp h with ⟨r, hr, hid⟩
  have := (List.mem_filter.mp hr).2
  rw [hid] at this
  simp at this

theorem idsFilterSub (l : List TRec) (tid : Int) :
    idsOf (l.filter (fun t => t.id ≠ tid)) ⊆ idsOf l := by
  rw [idsOfFilter]
  intro x hx
  exact (List.mem_filter.mp hx).1

theorem idsInsAt (l : List TRec) (i : Int) (r : TRec) :
    (idsOf (insAt l i r)).Perm (r.id :: idsOf l) := by
  unfold insAt idsOf
  rw [List.map_append, List.map_cons]
  refine (List.perm_middle).trans ?_
  rw [← List.map_append, List.take_append_drop]

theorem idxOfTabAppend {l1 : List TRec} (l2 : List TRec) {r : TRec} {tid : Int}
    (h1 : ∀ x ∈ l1, x.id ≠ tid) (hr : r.id = tid) :
    idxOfTab (l1 ++ r :: l2) tid = some l1.length := by
  induction l1 with
  | nil =>
    show idxOfTab (r :: l2) tid = some 0
    unfold idxOfTab
    rw [if_pos hr]
  | cons x l1 ih =>
    have hx := h1 x (List.mem_cons_self x l1)
    show idxOfTab (x :: (l1 ++ r :: l2)) tid = some (l1.length + 1)
    unfold idxOfTab
    rw [if_neg hx, ih (fun y hy => h1 y (List.mem_cons_of_mem x hy))]
    rfl

theorem idxOfTabInsAt {l : List TRec} {r : TRec} {tid : Int} (i : Int)
    (h : ∀ x ∈ l, x.id ≠ tid) (hr : r.id = tid) :
    idxOfTab (insAt l i r) tid =
      some (if i < 0 then l.length else min i.toNat l.length) := by
  unfold insAt
  have hlen : (l.take (if i < 0 then l.length else min i.toNat l.length)).length =
      if i < 0 then l.length else min i.toNat l.length := by
    rw [List.length_take]
    by_cases hi : i < 0
    · simp [hi]
    · simp only [hi, if_false]
      omega
  rw [idxOfTabAppend _ (fun x hx => h x (List.mem_of_mem_take hx)) hr, hlen]

theorem lengthFilterRemove {l : List TRec} {r : TRec} {tid : Int}
    (hn : (idsOf l).Nodup) (hm : r ∈ l) (hr : r.id = tid) :
    (l.filter (fun t => t.id ≠ tid)).length = l.length - 1 := by
  induction l with
  | nil => cases hm
  | cons x l ih =>
    have hn2 : (idsOf l).Nodup ∧ x.id ∉ idsOf l := by
      have h2 := List.nodup_cons.mp (show (x.id :: idsOf l).Nodup from hn)
      exact ⟨h2.2, h2.1⟩
    rcases List.mem_cons.mp hm with h1 | h1
    · subst h1
      have hnotin : ∀ y ∈ l, y.id ≠ tid := by
        intro y hy hc
        exact hn2.2 (List.mem_map.mpr ⟨y, hy, hc.trans hr.symm⟩)
      simp only [List.filter_cons]
      rw [if_neg (by simp [hr])]
      rw [List.filter_eq_self.mpr (fun a ha => by simpa using hnotin a ha)]
      simp
    · have hx : x.id ≠ tid := by
        intro hc
        exact hn2.2 (List.mem_map.mpr ⟨r, h1, hr.trans hc.symm⟩)
      simp only [List.filter_cons]
      rw [if_pos (by simp [hx]), List.length_cons, ih hn2.1 h1]
      have hlen : 1 ≤ l.length := List.length_pos.mpr (List.ne_nil_of_mem h1)
      simp only [List.length_cons]
      omega

theorem allIdsNodupIff (W : World) :
    (allIds W).Nodup ↔ (∀ p ∈ W.wins, (idsOf p.2).Nodup)
      ∧ List.Pairwise (fun p q : Int × List TRec =>
          (idsOf p.2).Disjoint (idsOf q.2)) W.wins := by
  unfold allIds
  rw [List.nodup_flatten, List.pairwise_map]
  constructor
  · rintro ⟨h1, h2⟩
    exact ⟨fun p hp => h1 _ (List.mem_map.mpr ⟨p, hp, rfl⟩), h2⟩
  · rintro ⟨h1, h2⟩
    refine ⟨?_, h2⟩
    intro l hl
    rcases List.mem_map.mp hl with ⟨p, hp, hpe⟩
    exact hpe ▸ h1 p hp

theorem allIdsMap {W : World} {n : Int} {f : Int × List TRec → Int × List TRec}
    (hf : ∀ p, idsOf (f p).2 = idsOf p.2) :
    allIds ⟨W.wins.map f, n⟩ = allIds W := by
  unfold allIds
  rw [List.map_map]
  congr 1
  exact List.map_congr_left (fun p _ => hf p)

theorem idsOfMapUngroup (tid : Int) (l : List TRec) :
    idsOf (l.map (fun t => if t.id = tid then
      (⟨t.id, TAB_GROUP_ID_NONE, t.openerTabId⟩ : TRec) else t)) = idsOf l := by
  induction l with
  | nil => rfl
  | cons x l ih =>
    by_cases hx : x.id = tid
    · simpa [idsOf, hx] using ih
    · simpa [idsOf, hx] using ih

theorem worldUngroupEq {W : World} {tid : Int} {W2 : World}
    (h : worldUngroup W tid = some W2) :
    W2 = ⟨W.wins.map (fun p => (p.1, p.2.map (fun t => if t.id = tid then
      ⟨t.id, TAB_GROUP_ID_NONE, t.openerTabId⟩ else t))), W.nextWin⟩ := by
  unfold worldUngroup at h
  by_cases hc : (findTab W tid).isSome
  · rw [if_pos hc] at h
    injection h with h2
    exact h2.symm
  · rw [if_neg hc] at h
    cases h

theorem keysNodupMap {l : List (Int × List TRec)}
    {f : Int × List TRec → Int × List TRec}
    (hf : ∀ p, (f p).1 = p.1) (h : (l.map Prod.fst).Nodup) :
    ((l.map f).map Prod.fst).Nodup := by
  rw [List.map_map,
    show l.map (Prod.fst ∘ f) = l.map Prod.fst from
      List.map_congr_left (fun p _ => hf p)]
  exact h

theorem allIdsNodupMap {W : World} {n : Int}
    {f : Int × List TRec → Int × List TRec}
    (hf : ∀ p, idsOf (f p).2 = idsOf p.2) (h : (allIds W).Nodup) :
    (allIds ⟨W.wins.map f, n⟩).Nodup := by
  rw [allIdsMap hf]
  exact h

theorem wfUngroup {W W2 : World} {tid : Int} (hW : WF W)
    (h : worldUngroup W tid = some W2) : WF W2 := by
  rw [worldUngroupEq h]
  refine ⟨?_, ?_, ?_⟩
  · exact keysNodupMap (fun p => rfl) hW.1
  · exact allIdsNodupMap (fun p => idsOfMapUngroup tid p.2) hW.2.1
  · intro p hp
    rcases List.mem_map.mp hp with ⟨q, hq, hqe⟩
    rw [← hqe]
    exact hW.2.2 q hq

theorem wfWinCreate {W : World} (hW : WF W) : WF (worldWinCreate W).2 := by
  show WF ⟨W.wins ++ [(W.nextWin, [])], W.nextWin + 1⟩
  refine ⟨?_, ?_, ?_⟩
  · rw [List.map_append, List.nodup_append]
    refine ⟨hW.1, by simp, ?_⟩
    intro a ha hb
    rcases List.mem_map.mp ha with ⟨q, hq, hqe⟩
    simp only [List.map_cons, List.map_nil, List.mem_singleton] at hb
    have := hW.2.2 q hq
    rw [← hqe] at hb
    omega
  · show (allIds ⟨W.wins ++ [(W.nextWin, [])], W.nextWin + 1⟩).Nodup
    unfold allIds
    rw [List.map_append, List.flatten_append]
    simpa [idsOf] using hW.2.1
  · intro p hp
    show p.1 < W.nextWin + 1
    rcases List.mem_append.mp hp with h1 | h1
    · have := hW.2.2 p h1
      omega
    · simp only [List.mem_singleton] at h1
      rw [h1]
      simp

theorem worldWinRemoveEq {W : World} {w : Int} {W2 : World}
    (h : worldWinRemove W w = some W2) :
    W2 = ⟨W.wins.filter (fun p => p.1 ≠ w), W.nextWin⟩ := by
  unfold worldWinRemove at h
  by_cases hc : winExists W w
  · rw [if_pos hc] at h
    injection h with h2
    exact h2.symm
  · rw [if_neg hc] at h
    cases h

theorem wfSubWins {W : World} (hW : WF W) {l2 : List (Int × List TRec)} {n : Int}
    (hs : l2.Sublist W.wins) (hn : W.nextWin ≤ n) : WF ⟨l2, n⟩ := by
  have h0 := (allIdsNodupIff W).mp hW.2.1
  refine ⟨List.Nodup.sublist (hs.map Prod.fst) hW.1, ?_, ?_⟩
  · rw [allIdsNodupIff]
    exact ⟨fun p hp => h0.1 p (hs.subset hp), h0.2.sublist hs⟩
  · intro p hp
    exact lt_of_lt_of_le (hW.2.2 p (hs.subset hp)) hn

theorem wfWinRemove {W W2 : World} {w : Int} (hW : WF W)
    (h : worldWinRemove W w = some W2) : WF W2 := by
  rw [worldWinRemoveEq h]
  exact wfSubWins hW (List.filter_sublist _) (le_refl _)

theorem worldMoveEq {W : World} {tid w i : Int} {t : Tab} {W2 : World}
    (h : worldMove W tid w i = some (t, W2)) :
    findTab W tid = some t ∧ winExists W w = true ∧
    W2 = ⟨(W.wins.map (fun p => (p.1, p.2.filter (fun x => x.id ≠ tid)))).map
        (fun p => if p.1 = w then (p.1, insAt p.2 i
          ⟨tid, if t.windowId ≠ w then TAB_GROUP_ID_NONE else t.groupId,
            t.openerTabId⟩) else p),
      W.nextWin⟩ := by
  unfold worldMove at h
  cases hft : findTab W tid with
  | none =>
    rw [hft] at h
    cases h
  | some snap =>
    rw [hft] at h
    dsimp only at h
    by_cases hwe : winExists W w = true
    · rw [if_pos hwe] at h
      injection h with h2
      injection h2 with h3 h4
      subst h3
      exact ⟨rfl, hwe, h4.symm⟩
    · rw [if_neg hwe] at h
      cases h

theorem memIdsInsAt {l : List TRec} {r : TRec} {i : Int} {x : Int}
    (h : x ∈ idsOf (insAt l i r)) : x = r.id ∨ x ∈ idsOf l := by
  have := (idsInsAt l i r).mem_iff.mp h
  rcases List.mem_cons.mp this with h1 | h1
  · exact Or.inl h1
  · exact Or.inr h1

theorem neTidOfMemFilter {l : List TRec} {tid x : Int}
    (h : x ∈ idsOf (l.filter (fun t => t.id ≠ tid))) : x ≠ tid := by
  intro he
  subst he
  exact notMemIdsFilter l x h

theorem wfMove {W : World} {tid w i : Int} {t : Tab} {W2 : World}
    (hW : WF W) (h : worldMove W tid w i = some (t, W2)) : WF W2 := by
  rcases worldMoveEq h with ⟨hft, hwe, hEq⟩
  subst hEq
  have houter : ∀ q : Int × List TRec,
      ((fun p => if p.1 = w then (p.1, insAt p.2 i
        ⟨tid, if t.windowId ≠ w then TAB_GROUP_ID_NONE else t.groupId,
          t.openerTabId⟩) else p) q).1 = q.1 := by
    intro q
    by_cases hq : q.1 = w
    · simp [hq]
    · simp [hq]
  have h0 := (allIdsNodupIff W).mp hW.2.1
  have hkeys : List.Pairwise (fun p q : Int × List TRec => p.1 ≠ q.1) W.wins :=
    List.pairwise_map.mp hW.1
  refine ⟨?_, ?_, ?_⟩
  · exact keysNodupMap houter (keysNodupMap (fun p => rfl) hW.1)
  · rw [allIdsNodupIff]
    constructor
    · intro p hp
      rcases List.mem_map.mp hp with ⟨q1, hq1, hq1e⟩
      rcases List.mem_map.mp hq1 with ⟨q, hq, hqe⟩
      rw [← hq1e, ← hqe]
      have hfnd : (idsOf (q.2.filter (fun x => x.id ≠ tid))).Nodup := by
        rw [idsOfFilter]
        exact List.Nodup.filter _ (h0.1 q hq)
      by_cases hqw : q.1 = w
      · dsimp only
        rw [if_pos hqw]
        dsimp only
        refine ((idsInsAt _ i _).nodup_iff).mpr ?_
        exact List.nodup_cons.mpr ⟨notMemIdsFilter q.2 tid, hfnd⟩
      · dsimp only
        rw [if_neg hqw]
        exact hfnd
    · refine List.pairwise_map.mpr (List.pairwise_map.mpr ?_)
      refine (hkeys.and h0.2).imp ?_
      rintro a b ⟨hne, hdisj⟩
      intro x hxa hxb
      by_cases haw : a.1 = w
      · by_cases hbw : b.1 = w
        · exact hne (haw.trans hbw.symm)
        · dsimp only at hxa hxb
          rw [if_pos haw] at hxa
          rw [if_neg hbw] at hxb
          dsimp only at hxa hxb
          rcases memIdsInsAt hxa with h1 | h1
          · exact neTidOfMemFilter hxb h1
          · exact hdisj (idsFilterSub _ _ h1) (idsFilterSub _ _ hxb)
      · by_cases hbw : b.1 = w
        · dsimp only at hxa hxb
          rw [if_neg haw] at hxa
          rw [if_pos hbw] at hxb
          dsimp only at hxa hxb
          rcases memIdsInsAt hxb with h1 | h1
          · exact neTidOfMemFilter hxa h1
          · exact hdisj (idsFilterSub _ _ hxa) (idsFilterSub _ _ h1)
        · dsimp only at hxa hxb
          rw [if_neg haw] at hxa
          rw [if_neg hbw] at hxb
          dsimp only at hxa hxb
          exact hdisj (idsFilterSub _ _ hxa) (idsFilterSub _ _ hxb)
  · intro p hp
    rcases List.mem_map.mp hp with ⟨q1, hq1, hq1e⟩
    rcases List.mem_map.mp hq1 with ⟨q, hq, hqe⟩
    rw [← hq1e, houter q1, ← hqe]
    exact hW.2.2 q hq

theorem ensureUngroupedRunNative {s : WSt} {W1 : World} (tid w : Int)
    (hf : s.failAt s.k = false) (h : worldUngroup s.world tid = some W1) :
    ensureUngrouped (worldHost true) tid w s =
      (Except.ok (),
        { s with
            world := W1,
            k := s.k + 1,
            log := s.log ++ [Cmd.ungroup tid] }) := by
  unfold ensureUngrouped
  dsimp only
  rw [if_pos (show (worldHost true).ungroupAvail = true from rfl)]
  rw [bindApp, tryJSApp, bindApp, wUngroupOk true tid hf h]
  rfl

theorem lastIndexRunW {s : WSt} (ua : Bool) (g w : Int)
    (hf : s.failAt s.k = false) :
    lastIndexOfGroup (worldHost ua) g w s =
      (Except.ok (groupEnd s.world g w),
        { s with k := s.k + 1, log := s.log ++ [Cmd.queryGW g w] }) := by
  unfold lastIndexOfGroup
  rw [bindApp, wQueryGWOk ua g w hf]
  rfl

theorem pureBindApp {σ α β : Type} (a : α) (k : α → M σ β) (s : σ) :
    (pure a >>= k) s = k a s := rfl

theorem wGetOkW {s : WSt} {t : Tab} {W : World} (ua : Bool) (tid : Int)
    (hsw : s.world = W) (hf : s.failAt s.k = false) (h : findTab W tid = some t) :
    (worldHost ua).getTab tid s =
      (Except.ok t, { s with k := s.k + 1, log := s.log ++ [Cmd.getTab tid] }) := by
  subst hsw
  exact wGetOk ua tid hf h

theorem wUngroupRunW {s : WSt} {WA W1 : World} (tid w : Int)
    (hsw : s.world = WA) (hf : s.failAt s.k = false)
    (h : worldUngroup WA tid = some W1) :
    ensureUngrouped (worldHost true) tid w s =
      (Except.ok (),
        { s with
            world := W1,
            k := s.k + 1,
            log := s.log ++ [Cmd.ungroup tid] }) := by
  subst hsw
  exact ensureUngroupedRunNative tid w hf h

theorem wMoveOkW {s : WSt} {t : Tab} {W1 W2 : World} (ua : Bool) (tid w i : Int)
    (hsw : s.world = W1) (hf : s.failAt s.k = false)
    (h : worldMove W1 tid w i = some (t, W2)) :
    (worldHost ua).move tid w i s =
      (Except.ok t,
        { s with world := W2, k := s.k + 1, log := s.log ++ [Cmd.move tid w i] }) := by
  subst hsw
  exact wMoveOk ua tid w i hf h

theorem moveDirectlyRunSame {s : WSt} {nt op fo : Tab} {W1 W2 : World} {tmv : Tab}
    (hff : ∀ k, s.failAt k = false)
    (hget : findTab s.world op.id = some fo)
    (hg : isGrouped fo = true)
    (hw : nt.windowId = op.windowId)
    (hun : worldUngroup s.world nt.id = some W1)
    (hend : ¬ groupEnd W1 fo.groupId op.windowId < 0)
    (hmv : worldMove W1 nt.id op.windowId
      (min (Int.ofNat (winList W1 op.windowId).length)
        (groupEnd W1 fo.groupId op.windowId + 1)) = some (tmv, W2)) :
    moveDirectlyAfterGroup (worldHost true) nt op s =
      (Except.ok (),
        { s with
            world := W2,
            k := s.k + 5,
            log := s.log ++ [Cmd.waitStep, Cmd.getTab op.id, Cmd.ungroup nt.id,
              Cmd.queryGW fo.groupId op.windowId, Cmd.queryW op.windowId,
              Cmd.move nt.id op.windowId
                (min (Int.ofNat (winList W1 op.windowId).length)
                  (groupEnd W1 fo.groupId op.windowId + 1))] }) := by
  unfold moveDirectlyAfterGroup
  dsimp only
  rw [bindApp, wWaitApp]
  dsimp only
  rw [bindApp, tryJSApp, bindApp, wGetOkW true op.id ?_ ?_ hget]
  dsimp only
  rw [if_neg (by simp [hg])]
  rw [if_neg (by simp [hw])]
  rw [pureBindApp, pureBindApp]
  rw [bindApp, wUngroupRunW nt.id op.windowId ?_ ?_ hun]
  dsimp only
  rw [bindApp, lastIndexRunW true fo.groupId op.windowId ?_]
  dsimp only
  rw [if_neg hend]
  rw [pureBindApp]
  rw [bindApp, wQueryWOk true op.windowId ?_]
  dsimp only
  rw [snapWinLength]
  rw [tryJSApp, bindApp, wMoveOkW true nt.id op.windowId _ ?_ ?_ hmv]
  dsimp only
  refine congrArg (fun x => (Except.ok (), x)) ?_
  simp [List.append_assoc]
  all_goals first
    | rfl
    | exact hff _

theorem getAppendCons (r : TRec) (l2 : List TRec) :
    ∀ l1 : List TRec, (l1 ++ r :: l2).get? l1.length = some r
  | [] => rfl
  | x :: l1 => getAppendCons r l2 l1

theorem memOfWinExists {W : World} {w : Int} (h : winExists W w = true) :
    (w, winList W w) ∈ W.wins := by
  unfold winExists at h
  cases hf : W.wins.find? (fun p => p.1 = w) with
  | none =>
    rw [hf] at h
    cases h
  | some p =>
    have hmem := List.mem_of_find?_eq_some hf
    have hp : p.1 = w := by simpa using List.find?_some hf
    unfold winList
    rw [hf]
    show (w, p.2) ∈ W.wins
    rw [← hp]
    exact hmem

theorem findAppendSome {α : Type} {p : α → Bool} {a : α} :
    ∀ {l1 : List α}, l1.find? p = some a → ∀ l2 : List α, (l1 ++ l2).find? p = some a := by
  intro l1
  induction l1 with
  | nil =>
    intro h
    cases h
  | cons x l ih =>
    intro h l2
    by_cases hx : p x = true
    · rw [List.find?_cons_of_pos _ hx] at h
      rw [List.cons_append, List.find?_cons_of_pos _ hx]
      exact h
    · rw [List.find?_cons_of_neg _ hx] at h
      rw [List.cons_append, List.find?_cons_of_neg _ hx]
      exact ih h l2

theorem findAppendNone {α : Type} {p : α → Bool} :
    ∀ {l1 : List α}, l1.find? p = none → ∀ l2 : List α, (l1 ++ l2).find? p = l2.find? p := by
  intro l1
  induction l1 with
  | nil =>
    intro _ l2
    rfl
  | cons x l ih =>
    intro h l2
    by_cases hx : p x = true
    · rw [List.find?_cons_of_pos _ hx] at h
      cases h
    · rw [List.find?_cons_of_neg _ hx] at h
      rw [List.cons_append, List.find?_cons_of_neg _ hx]
      exact ih h l2

theorem findFilterOfImp {α : Type} {p q : α → Bool}
    (himp : ∀ a, p a = true → q a = true) :
    ∀ l : List α, (l.filter q).find? p = l.find? p := by
  intro l
  induction l with
  | nil => rfl
  | cons x l ih =>
    by_cases hx : p x = true
    · rw [List.filter_cons, if_pos (himp x hx), List.find?_cons_of_pos _ hx,
        List.find?_cons_of_pos _ hx]
    · by_cases hq : q x = true
      · rw [List.filter_cons, if_pos hq, List.find?_cons_of_neg _ hx,
          List.find?_cons_of_neg _ hx, ih]
      · rw [List.filter_cons, if_neg (by simpa using hq), List.find?_cons_of_neg _ hx, ih]

theorem winListWinCreate {W : World} {x : Int} (hx : x ≠ W.nextWin) :
    winList (worldWinCreate W).2 x = winList W x := by
  show winList ⟨W.wins ++ [(W.nextWin, [])], W.nextWin + 1⟩ x = winList W x
  unfold winList
  cases hf : W.wins.find? (fun p => p.1 = x) with
  | some p => rw [findAppendSome hf]
  | none =>
    rw [findAppendNone hf,
      List.find?_cons_of_neg _ (by simpa using fun he => hx he.symm)]
    rfl

theorem winExistsWinCreateNew (W : World) :
    winExists (worldWinCreate W).2 W.nextWin = true := by
  show winExists ⟨W.wins ++ [(W.nextWin, [])], W.nextWin + 1⟩ W.nextWin = true
  unfold winExists
  cases hf : W.wins.find? (fun p => p.1 = W.nextWin) with
  | some p =>
    rw [findAppendSome hf]
    rfl
  | none =>
    rw [findAppendNone hf, List.find?_cons_of_pos _ (by simp)]
    rfl

theorem winExistsWinCreateOld {W : World} {x : Int} (h : winExists W x = true) :
    winExists (worldWinCreate W).2 x = true := by
  unfold winExists at h ⊢
  cases hf : W.wins.find? (fun p => p.1 = x) with
  | none =>
    rw [hf] at h
    cases h
  | some p =>
    show ((W.wins ++ [(W.nextWin, [])]).find?
      (fun p : Int × List TRec => p.1 = x)).isSome = true
    rw [findAppendSome hf]
    rfl

theorem allSnapsWinCreate (W : World) :
    allSnaps (worldWinCreate W).2 = allSnaps W := by
  show allSnaps ⟨W.wins ++ [(W.nextWin, [])], W.nextWin + 1⟩ = allSnaps W
  unfold allSnaps
  rw [List.map_append, List.flatten_append]
  simp [snapWin, snapFrom]

theorem findTabWinCreate (W : World) (tid : Int) :
    findTab (worldWinCreate W).2 tid = findTab W tid := by
  unfold findTab
  rw [allSnapsWinCreate]

theorem winExistsMap {W : World} {x : Int} {n : Int}
    {f : Int × List TRec → Int × List TRec} (hf : ∀ p, (f p).1 = p.1) :
    winExists ⟨W.wins.map f, n⟩ x = winExists W x := by
  unfold winExists
  show ((W.wins.map f).find? (fun p => p.1 = x)).isSome = _
  rw [findMapKeyPres hf]
  cases W.wins.find? (fun p => p.1 = x) <;> rfl

theorem moveKeyPres (w i : Int) (r : TRec) : ∀ q : Int × List TRec,
    ((fun p : Int × List TRec => if p.1 = w then (p.1, insAt p.2 i r) else p) q).1 = q.1 := by
  intro q
  by_cases hq : q.1 = w
  · simp [hq]
  · simp [hq]

theorem winExistsMove {W : World} {tid w i x : Int} {t : Tab} {W2 : World}
    (h : worldMove W tid w i = some (t, W2)) :
    winExists W2 x = winExists W x := by
  rcases worldMoveEq h with ⟨hft, hwe, hEq⟩
  subst hEq
  rw [show ((W.wins.map (fun p => (p.1, p.2.filter (fun x => x.id ≠ tid)))).map
      (fun p => if p.1 = w then (p.1, insAt p.2 i
        ⟨tid, if t.windowId ≠ w then TAB_GROUP_ID_NONE else t.groupId,
          t.openerTabId⟩) else p)) =
      W.wins.map ((fun p => if p.1 = w then (p.1, insAt p.2 i
        ⟨tid, if t.windowId ≠ w then TAB_GROUP_ID_NONE else t.groupId,
          t.openerTabId⟩) else p) ∘
        (fun p => (p.1, p.2.filter (fun x => x.id ≠ tid)))) from List.map_map _ _ _]
  exact winExistsMap (fun p => moveKeyPres w i _ _)

theorem winExistsUngroup {W W1 : World} {tid x : Int}
    (hu : worldUngroup W tid = some W1) :
    winExists W1 x = winExists W x := by
  rw [worldUngroupEq hu]
  exact winExistsMap (fun p => rfl)

theorem winListMoveDest {W : World} {tid w i : Int} {t : Tab} {W2 : World}
    (hW : WF W) (h : worldMove W tid w i = some (t, W2)) :
    winList W2 w = insAt ((winList W w).filter (fun x => x.id ≠ tid)) i
      ⟨tid, if t.windowId ≠ w then TAB_GROUP_ID_NONE else t.groupId,
        t.openerTabId⟩ := by
  rcases worldMoveEq h with ⟨hft, hwe, hEq⟩
  subst hEq
  show winList ⟨(W.wins.map (fun p => (p.1, p.2.filter (fun x => x.id ≠ tid)))).map
      (fun p => if p.1 = w then (p.1, insAt p.2 i
        ⟨tid, if t.windowId ≠ w then TAB_GROUP_ID_NONE else t.groupId,
          t.openerTabId⟩) else p), W.nextWin⟩ w = _
  rw [List.map_map]
  rw [winListMap (fun p => by
      by_cases hp : p.1 = w
      · simp [Function.comp, hp]
      · simp [Function.comp, hp])
    hW (memOfWinExists hwe)]
  simp only [Function.comp]
  simp

theorem winListMoveOther {W : World} {tid w i x : Int} {t : Tab} {W2 : World}
    (hW : WF W) (h : worldMove W tid w i = some (t, W2)) (hx : x ≠ w)
    (hex : winExists W x = true) :
    winList W2 x = (winList W x).filter (fun r => r.id ≠ tid) := by
  rcases worldMoveEq h with ⟨hft, hwe, hEq⟩
  subst hEq
  show winList ⟨(W.wins.map (fun p => (p.1, p.2.filter (fun x => x.id ≠ tid)))).map
      (fun p => if p.1 = w then (p.1, insAt p.2 i
        ⟨tid, if t.windowId ≠ w then TAB_GROUP_ID_NONE else t.groupId,
          t.openerTabId⟩) else p), W.nextWin⟩ x = _
  rw [List.map_map]
  rw [winListMap (fun p => by
      by_cases hp : p.1 = w
      · simp [Function.comp, hp]
      · simp [Function.comp, hp])
    hW (memOfWinExists hex)]
  simp only [Function.comp]
  rw [if_neg hx]

theorem moveSome {W : World} {tid : Int} {snap : Tab} (w i : Int)
    (hft : findTab W tid = some snap) (hwe : winExists W w = true) :
    ∃ W2, worldMove W tid w i = some (snap, W2) := by
  unfold worldMove
  rw [hft]
  dsimp only
  rw [if_pos hwe]
  exact ⟨_, rfl⟩

theorem ungroupSome {W : World} {tid : Int} {t : Tab}
    (hft : findTab W tid = some t) :
    worldUngroup W tid = some ⟨W.wins.map (fun p => (p.1, p.2.map (fun r =>
      if r.id = tid then ⟨r.id, TAB_GROUP_ID_NONE, r.openerTabId⟩ else r))),
      W.nextWin⟩ := by
  unfold worldUngroup
  rw [if_pos (by rw [hft]; rfl)]

theorem winRemoveSome {W : World} {w : Int} (hwe : winExists W w = true) :
    worldWinRemove W w = some ⟨W.wins.filter (fun p => p.1 ≠ w), W.nextWin⟩ := by
  unfold worldWinRemove
  rw [if_pos hwe]

theorem winListWinRemove {W : World} {w x : Int} {W2 : World}
    (h : worldWinRemove W w = some W2) (hx : x ≠ w) :
    winList W2 x = winList W x := by
  rw [worldWinRemoveEq h]
  unfold winList
  show (((W.wins.filter (fun p => p.1 ≠ w)).find?
    (fun p : Int × List TRec => p.1 = x)).map Prod.snd).getD [] = _
  rw [findFilterOfImp (fun a ha => by
    have h2 : a.1 = x := by simpa using ha
    simpa using h2 ▸ hx)]

theorem insAtNeg {l : List TRec} {i : Int} (r : TRec) (hi : i < 0) :
    insAt l i r = l ++ [r] := by
  unfold insAt
  rw [if_pos hi]
  show List.take l.length l ++ r :: List.drop l.length l = l ++ [r]
  rw [List.take_length, List.drop_length]

theorem insAtLength (l : List TRec) (i : Int) (r : TRec) :
    (insAt l i r).length = l.length + 1 := by
  unfold insAt
  by_cases hi : i < 0
  · simp [hi]
  · simp only [hi, if_false, List.length_append, List.length_cons,
      List.length_take, List.length_drop]
    omega

theorem filterIdem {α : Type} (p : α → Bool) (l : List α) :
    (l.filter p).filter p = l.filter p := by
  rw [List.filter_filter]
  exact List.filter_congr (fun a ha => Bool.and_self _)

theorem getInsAt (l : List TRec) (r : TRec) (p : Nat) (hp : p ≤ l.length) :
    (l.take p ++ r :: l.drop p).get? p = some r := by
  have h := getAppendCons r (l.drop p) (l.take p)
  rwa [List.length_take, Nat.min_eq_left hp] at h

theorem winExistsOfFind {W : World} {tid : Int} {t : Tab}
    (hW : WF W) (h : findTab W tid = some t) : winExists W t.windowId = true := by
  rcases findTabSpec h with ⟨hid, w, l, j, r, hmem, hget, hte⟩
  rw [hte]
  exact winExistsOfMem hW hmem

theorem moveDestChar {W : World} {tid w i : Int} {t : Tab} {W2 : World}
    (hW : WF W) (h : worldMove W tid w i = some (t, W2)) :
    findTab W2 tid = some ⟨tid, w,
        (if t.windowId ≠ w then TAB_GROUP_ID_NONE else t.groupId),
        Int.ofNat (if i < 0 then ((winList W w).filter (fun x => x.id ≠ tid)).length
          else min i.toNat ((winList W w).filter (fun x => x.id ≠ tid)).length),
        t.openerTabId⟩ ∧
      tabPos W2 w tid =
        some (if i < 0 then ((winList W w).filter (fun x => x.id ≠ tid)).length
          else min i.toNat ((winList W w).filter (fun x => x.id ≠ tid)).length) ∧
      winCount W2 w = ((winList W w).filter (fun x => x.id ≠ tid)).length + 1 := by
  have hW2 : WF W2 := wfMove hW h
  have hwl2 := winListMoveDest hW h
  have hwe2 : winExists W2 w = true := by
    rw [winExistsMove h]
    exact (worldMoveEq h).2.1
  have hmem2 := memOfWinExists hwe2
  have hpos : (if i < 0 then ((winList W w).filter (fun x => x.id ≠ tid)).length
      else min i.toNat ((winList W w).filter (fun x => x.id ≠ tid)).length) ≤
      ((winList W w).filter (fun x => x.id ≠ tid)).length := by
    by_cases hi : i < 0
    · simp [hi]
    · simp only [hi, if_false]
      omega
  have hget2 : (winList W2 w).get?
      (if i < 0 then ((winList W w).filter (fun x => x.id ≠ tid)).length
        else min i.toNat ((winList W w).filter (fun x => x.id ≠ tid)).length) =
      some ⟨tid, if t.windowId ≠ w then TAB_GROUP_ID_NONE else t.groupId,
        t.openerTabId⟩ := by
    rw [hwl2]
    unfold insAt
    show (((winList W w).filter (fun x => x.id ≠ tid)).take
        (if i < 0 then ((winList W w).filter (fun x => x.id ≠ tid)).length
          else min i.toNat ((winList W w).filter (fun x => x.id ≠ tid)).length) ++
      _ :: ((winList W w).filter (fun x => x.id ≠ tid)).drop
        (if i < 0 then ((winList W w).filter (fun x => x.id ≠ tid)).length
          else min i.toNat ((winList W w).filter (fun x => x.id ≠ tid)).length)).get? _ =
      _
    exact getInsAt _ _ _ hpos
  refine ⟨?_, ?_, ?_⟩
  · have hfd := findTabOfMem hW2 hmem2 hget2
    simpa using hfd
  · unfold tabPos
    rw [hwl2]
    rw [idxOfTabInsAt i (fun x hx => by simpa using (List.mem_filter.mp hx).2) rfl]
  · unfold winCount
    rw [hwl2, insAtLength]

theorem filterLenSelf {W : World} {tid w : Int} {t : Tab}
    (hW : WF W) (hft : findTab W tid = some t) (hwin : t.windowId = w) :
    ((winList W w).filter (fun x => x.id ≠ tid)).length + 1 =
      (winList W w).length := by
  rcases findTabSpec hft with ⟨hid, w1, l, j, r, hmem, hget, hte⟩
  have hw1 : w1 = w := by
    rw [hte] at hwin
    exact hwin
  subst hw1
  have hwl : winList W w1 = l := winListOfMem hW hmem
  have hrid : r.id = tid := by
    rw [hte] at hid
    exact hid
  have hrm : r ∈ l := by
    rcases List.get?_eq_some.mp hget with ⟨hj, hg⟩
    exact hg ▸ l.get_mem j hj
  have hnd : (idsOf l).Nodup := ((allIdsNodupIff W).mp hW.2.1).1 (w1, l) hmem
  rw [hwl, lengthFilterRemove hnd hrm hrid]
  have : 1 ≤ l.length := List.length_pos.mpr (List.ne_nil_of_mem hrm)
  omega

theorem findTabUngroupSelf {W W1 : World} {tid : Int} {t : Tab}
    (hW : WF W) (hu : worldUngroup W tid = some W1) (hft : findTab W tid = some t) :
    findTab W1 tid =
      some ⟨tid, t.windowId, TAB_GROUP_ID_NONE, t.index, t.openerTabId⟩ := by
  have hW1 : WF W1 := wfUngroup hW hu
  rcases findTabSpec hft with ⟨hid, w, l, j, r, hmem, hget, hte⟩
  have hrid : r.id = tid := by
    rw [hte] at hid
    exact hid
  have hEq := worldUngroupEq hu
  have hmem2 : (w, l.map (fun x => if x.id = tid then
      (⟨x.id, TAB_GROUP_ID_NONE, x.openerTabId⟩ : TRec) else x)) ∈ W1.wins := by
    rw [hEq]
    exact List.mem_map.mpr ⟨(w, l), hmem, rfl⟩
  have hget2 : (l.map (fun x => if x.id = tid then
      (⟨x.id, TAB_GROUP_ID_NONE, x.openerTabId⟩ : TRec) else x)).get? j =
      some ⟨tid, TAB_GROUP_ID_NONE, r.openerTabId⟩ := by
    rw [List.get?_map, hget]
    show some (if r.id = tid then
      (⟨r.id, TAB_GROUP_ID_NONE, r.openerTabId⟩ : TRec) else r) = _
    rw [if_pos hrid, hrid]
  have hfd := findTabOfMem hW1 hmem2 hget2
  rw [hte]
  simpa using hfd

theorem findTabUngroupOther {W W1 : World} {tid oid : Int} {t : Tab}
    (hW : WF W) (hu : worldUngroup W tid = some W1) (hft : findTab W oid = some t)
    (hne : oid ≠ tid) :
    findTab W1 oid = some t := by
  have hW1 : WF W1 := wfUngroup hW hu
  rcases findTabSpec hft with ⟨hid, w, l, j, r, hmem, hget, hte⟩
  have hrid : r.id = oid := by
    rw [hte] at hid
    exact hid
  have hEq := worldUngroupEq hu
  have hmem2 : (w, l.map (fun x => if x.id = tid then
      (⟨x.id, TAB_GROUP_ID_NONE, x.openerTabId⟩ : TRec) else x)) ∈ W1.wins := by
    rw [hEq]
    exact List.mem_map.mpr ⟨(w, l), hmem, rfl⟩
  have hget2 : (l.map (fun x => if x.id = tid then
      (⟨x.id, TAB_GROUP_ID_NONE, x.openerTabId⟩ : TRec) else x)).get? j =
      some r := by
    rw [List.get?_map, hget]
    show some (if r.id = tid then
      (⟨r.id, TAB_GROUP_ID_NONE, r.openerTabId⟩ : TRec) else r) = _
    rw [if_neg (by rw [hrid]; exact hne)]
  have hfd := findTabOfMem hW1 hmem2 hget2
  rw [hrid] at hfd
  rw [hte, hrid]
  exact hfd

theorem ungroupNoop {W : World} {tid : Int} {t : Tab}
    (hW : WF W) (hft : findTab W tid = some t)
    (hgid : t.groupId = TAB_GROUP_ID_NONE) :
    worldUngroup W tid = some W := by
  rw [ungroupSome hft]
  have hfix : ∀ p ∈ W.wins, ((fun p : Int × List TRec => (p.1, p.2.map (fun r =>
      if r.id = tid then (⟨r.id, TAB_GROUP_ID_NONE, r.openerTabId⟩ : TRec)
      else r))) p) = p := by
    intro p hp
    have hrec : ∀ r ∈ p.2, (if r.id = tid then
        (⟨r.id, TAB_GROUP_ID_NONE, r.openerTabId⟩ : TRec) else r) = r := by
      intro r hr
      by_cases hrid : r.id = tid
      · rcases List.mem_iff_get.mp hr with ⟨j, hj⟩
        have hget : p.2.get? j = some r := by
          rw [List.get?_eq_get]
          exact congrArg some hj
        have hmemp : (p.1, p.2) ∈ W.wins := hp
        have hfd := findTabOfMem hW hmemp hget
        rw [hrid] at hfd
        rw [hft] at hfd
        injection hfd with hfd2
        have hgr : r.groupId = TAB_GROUP_ID_NONE := by
          rw [hfd2] at hgid
          exact hgid
        rw [if_pos hrid]
        cases r with
        | mk rid rgid ropn =>
          simp only at hgr hrid
          rw [hgr]
      · rw [if_neg hrid]
    dsimp only
    rw [List.map_congr_left hrec]
    simp
  cases W with
  | mk wins nextWin =>
    dsimp only
    rw [List.map_congr_left (fun p hp => hfix p hp)]
    simp

theorem groupEndGe {W1 : World} {oid g w : Int} {op : Tab}
    (hW : WF W1) (hf : findTab W1 oid = some op) (hww : op.windowId = w)
    (hgg : op.groupId = g) : 0 ≤ groupEnd W1 g w := by
  rcases findTabSpec hf with ⟨hid, w2, l, j, r, hmem, hget, hte⟩
  have hw2 : w2 = w := by
    rw [hte] at hww
    exact hww
  subst hw2
  have hwl : winList W1 w2 = l := winListOfMem hW hmem
  have hsnap : (⟨r.id, w2, r.groupId, Int.ofNat j, r.openerTabId⟩ : Tab) ∈
      snapWin w2 l := by
    have h1 := memSnapFromOfGet w2 0 hget
    rw [Nat.zero_add] at h1
    exact h1
  have hrg : r.groupId = g := by
    rw [hte] at hgg
    exact hgg
  have hmf : (⟨r.id, w2, r.groupId, Int.ofNat j, r.openerTabId⟩ : Tab) ∈
      groupSnaps W1 g w2 := by
    unfold groupSnaps
    rw [hwl]
    exact List.mem_filter.mpr ⟨hsnap, by simpa using hrg⟩
  have hle := leFoldMaxFromMem (-1) hmf
  unfold groupEnd foldMax
  calc (0 : Int) ≤ Int.ofNat j := by
        rw [Int.ofNat_eq_natCast]
        exact Int.natCast_nonneg j
    _ ≤ _ := hle

theorem hopWorldChar {W : World} {t : Tab} {tid w : Int}
    (hW : WF W) (hf : findTab W tid = some t) (hwin : t.windowId = w) :
    ∃ t2 Wb Wd We,
      worldMove (worldWinCreate W).2 tid W.nextWin (-1) = some (t, Wb) ∧
      worldMove Wb tid w (-1) = some (t2, Wd) ∧
      worldWinRemove Wd W.nextWin = some We ∧
      WF We ∧
      findTab We tid = some ⟨tid, w, TAB_GROUP_ID_NONE,
        Int.ofNat (winCount W w - 1), t.openerTabId⟩ ∧
      winCount We w = winCount W w := by
  have hWc : WF (worldWinCreate W).2 := wfWinCreate hW
  have hfc : findTab (worldWinCreate W).2 tid = some t := by
    rw [findTabWinCreate]
    exact hf
  rcases findTabSpec hf with ⟨hid, w1, l, j, r, hmem, hget, hte⟩
  have hw1 : w1 = w := by
    rw [hte] at hwin
    exact hwin
  subst hw1
  have hrid : r.id = tid := by
    rw [hte] at hid
    exact hid
  have hww : w1 ≠ W.nextWin := by
    have hlt := hW.2.2 (w1, l) hmem
    intro he
    rw [he] at hlt
    exact lt_irrefl _ hlt
  have hwe1 : winExists (worldWinCreate W).2 W.nextWin = true :=
    winExistsWinCreateNew W
  obtain ⟨Wb, hm1⟩ := moveSome W.nextWin (-1) hfc hwe1
  have hWb : WF Wb := wfMove hWc hm1
  have hfb := (moveDestChar hWc hm1).1
  have hweWc : winExists (worldWinCreate W).2 w1 = true :=
    winExistsWinCreateOld (winExistsOfMem hW hmem)
  have hweb : winExists Wb w1 = true := by
    rw [winExistsMove hm1]
    exact hweWc
  obtain ⟨Wd, hm2⟩ := moveSome w1 (-1) hfb hweb
  have hWd : WF Wd := wfMove hWb hm2
  have hwlb : winList Wb w1 = (winList W w1).filter (fun x => x.id ≠ tid) := by
    rw [winListMoveOther hWc hm1 hww hweWc, winListWinCreate hww]
  have hfilter2 : (winList Wb w1).filter (fun x => x.id ≠ tid) = winList Wb w1 := by
    rw [List.filter_eq_self]
    intro a ha
    rw [hwlb] at ha
    simpa using (List.mem_filter.mp ha).2
  have hwl : winList W w1 = l := winListOfMem hW hmem
  have hrm : r ∈ l := by
    rcases List.get?_eq_some.mp hget with ⟨hj, hg⟩
    exact hg ▸ l.get_mem j hj
  have hnd : (idsOf l).Nodup := ((allIdsNodupIff W).mp hW.2.1).1 (w1, l) hmem
  have hlen : ((winList W w1).filter (fun x => x.id ≠ tid)).length =
      (winList W w1).length - 1 := by
    rw [hwl]
    exact lengthFilterRemove hnd hrm hrid
  have hlen1 : 1 ≤ (winList W w1).length := by
    rw [hwl]
    exact List.length_pos.mpr (List.ne_nil_of_mem hrm)
  have hweDnw : winExists Wd W.nextWin = true := by
    rw [winExistsMove hm2, winExistsMove hm1]
    exact hwe1
  have hrm3 := winRemoveSome hweDnw
  have hWe : WF ⟨Wd.wins.filter (fun p => p.1 ≠ W.nextWin), Wd.nextWin⟩ :=
    wfWinRemove hWd hrm3
  have hmemWd : (w1, winList Wd w1) ∈ Wd.wins := by
    apply memOfWinExists
    rw [winExistsMove hm2]
    exact hweb
  have hmemWe : (w1, winList Wd w1) ∈
      (Wd.wins.filter (fun p => p.1 ≠ W.nextWin)) := by
    refine List.mem_filter.mpr ⟨hmemWd, ?_⟩
    simpa using hww
  have hmemWe2 : (w1, winList Wd w1) ∈
      (⟨Wd.wins.filter (fun p => p.1 ≠ W.nextWin), Wd.nextWin⟩ : World).wins :=
    hmemWe
  have hwld : winList Wd w1 =
      (winList Wb w1) ++ [⟨tid, TAB_GROUP_ID_NONE, t.openerTabId⟩] := by
    rw [winListMoveDest hWb hm2, hfilter2, insAtNeg _ (by omega)]
    rw [if_pos (show (W.nextWin : Int) ≠ w1 from Ne.symm hww)]
  have hget2 : (winList Wd w1).get? (winList Wb w1).length =
      some ⟨tid, TAB_GROUP_ID_NONE, t.openerTabId⟩ := by
    rw [hwld]
    exact getAppendCons _ _ _
  have hfe := findTabOfMem hWe hmemWe2 hget2
  have hlenb : (winList Wb w1).length = (winList W w1).length - 1 := by
    rw [hwlb]
    exact hlen
  refine ⟨_, Wb, Wd, _, hm1, hm2, hrm3, hWe, ?_, ?_⟩
  · rw [show winCount W w1 - 1 = (winList Wb w1).length from by
      rw [hlenb]; rfl]
    exact hfe
  · show (winList ⟨Wd.wins.filter (fun p => p.1 ≠ W.nextWin), Wd.nextWin⟩ w1).length =
      winCount W w1
    rw [winListOfMem hWe hmemWe2, hwld, List.length_append, hlenb]
    show (winList W w1).length - 1 + [(⟨tid, TAB_GROUP_ID_NONE,
      t.openerTabId⟩ : TRec)].length = (winList W w1).length
    rw [List.length_singleton]
    omega

theorem wWinCreateOk {s : WSt} (ua : Bool) (hf : s.failAt s.k = false) :
    (worldHost ua).winCreate s =
      (Except.ok (worldWinCreate s.world).1,
        { s with
            world := (worldWinCreate s.world).2,
            k := s.k + 1,
            log := s.log ++ [Cmd.winCreate] }) := by
  show callW Cmd.winCreate (fun W => some (worldWinCreate W)) s = _
  exact callWOk Cmd.winCreate hf rfl

theorem wWinRemoveOkW {s : WSt} {WA W2 : World} (ua : Bool) (w : Int)
    (hsw : s.world = WA) (hf : s.failAt s.k = false)
    (h : worldWinRemove WA w = some W2) :
    (worldHost ua).winRemove w s =
      (Except.ok (),
        { s with
            world := W2,
            k := s.k + 1,
            log := s.log ++ [Cmd.winRemove w] }) := by
  subst hsw
  show callW (Cmd.winRemove w)
    (fun W => (worldWinRemove W w).map (fun W2 => ((), W2))) s = _
  exact callWOk (Cmd.winRemove w) hf (by rw [h]; rfl)

theorem worldWinCreateFst (W : World) : (worldWinCreate W).1 = W.nextWin := rfl

theorem ensureUngroupedRunHopM {s : WSt} {t t2 : Tab} {Wb Wd We : World}
    (tid w : Int)
    (hff : ∀ k, s.failAt k = false)
    (hm1 : worldMove (worldWinCreate s.world).2 tid s.world.nextWin (-1) =
      some (t, Wb))
    (hm2 : worldMove Wb tid w (-1) = some (t2, Wd))
    (hrm : worldWinRemove Wd s.world.nextWin = some We) :
    ensureUngrouped (worldHost false) tid w s =
      (Except.ok (),
        { s with
            world := We,
            k := s.k + 4,
            log := s.log ++ [Cmd.winCreate, Cmd.move tid s.world.nextWin (-1),
              Cmd.move tid w (-1), Cmd.winRemove s.world.nextWin] }) := by
  unfold ensureUngrouped
  dsimp only
  rw [if_neg (by simp [worldHost])]
  rw [pureBindApp]
  rw [tryJSApp, bindApp, wWinCreateOk false (hff s.k)]
  dsimp only
  rw [worldWinCreateFst]
  rw [bindApp, wMoveOkW false tid s.world.nextWin (-1) ?_ ?_ hm1]
  dsimp only
  rw [bindApp, wMoveOkW false tid w (-1) ?_ ?_ hm2]
  dsimp only
  rw [tryJSApp, wWinRemoveOkW false s.world.nextWin ?_ ?_ hrm]
  dsimp only
  refine congrArg (fun x => (Except.ok (), x)) ?_
  simp [List.append_assoc]
  all_goals first
    | rfl
    | exact hff _

theorem ensureHopRun {s : WSt} {t : Tab} (tid w : Int)
    (hW : WF s.world) (hff : ∀ k, s.failAt k = false)
    (hf : findTab s.world tid = some t) (hwin : t.windowId = w) :
    resOf (ensureUngrouped (worldHost false) tid w) s = Except.ok () ∧
    (stOf (ensureUngrouped (worldHost false) tid w) s).failAt = s.failAt ∧
    WF (stOf (ensureUngrouped (worldHost false) tid w) s).world ∧
    findTab (stOf (ensureUngrouped (worldHost false) tid w) s).world tid =
      some ⟨tid, w, TAB_GROUP_ID_NONE, Int.ofNat (winCount s.world w - 1),
        t.openerTabId⟩ ∧
    winCount (stOf (ensureUngrouped (worldHost false) tid w) s).world w =
      winCount s.world w := by
  obtain ⟨t2, Wb, Wd, We, hm1, hm2, hrm, hWFe, hfe, hcnt⟩ := hopWorldChar hW hf hwin
  have hrun := ensureUngroupedRunHopM tid w hff hm1 hm2 hrm
  unfold resOf stOf
  rw [hrun]
  exact ⟨rfl, rfl, hWFe, hfe, hcnt⟩

/-- C7 (corrected): EnsureUngrouped is a no-op on an already-ungrouped tab
when the native primitive is available and succeeds; in the window-hop
fallback configuration the tab keeps its window and (absent) group
membership but is sent to the window's tail slot, so a first call on a
non-tail tab does change its index, and the operation is idempotent only
from the first call on: a second consecutive call reproduces the same
final tab snapshot. -/
theorem C7_amended_idempotence :
    (∀ (s : WSt) (tid w : Int) (t : Tab),
      WF s.world → s.failAt s.k = false →
      findTab s.world tid = some t → t.groupId = TAB_GROUP_ID_NONE →
      ensureUngrouped (worldHost true) tid w s =
        (Except.ok (),
          { s with k := s.k + 1, log := s.log ++ [Cmd.ungroup tid] }))
    ∧ (∀ (s : WSt) (tid w : Int) (t : Tab),
      WF s.world → (∀ k, s.failAt k = false) →
      findTab s.world tid = some t → t.windowId = w →
      resOf (ensureUngrouped (worldHost false) tid w) s = Except.ok () ∧
      findTab (stOf (ensureUngrouped (worldHost false) tid w) s).world tid =
        some ⟨tid, w, TAB_GROUP_ID_NONE, Int.ofNat (winCount s.world w - 1),
          t.openerTabId⟩ ∧
      winCount (stOf (ensureUngrouped (worldHost false) tid w) s).world w =
        winCount s.world w)
    ∧ (∀ (s : WSt) (tid w : Int) (t : Tab),
      WF s.world → (∀ k, s.failAt k = false) →
      findTab s.world tid = some t → t.windowId = w →
      findTab (stOf (ensureUngrouped (worldHost false) tid w)
          (stOf (ensureUngrouped (worldHost false) tid w) s)).world tid =
        findTab (stOf (ensureUngrouped (worldHost false) tid w) s).world tid) := by
  refine ⟨?_, ?_, ?_⟩
  · intro s tid w t hW hf hft hgid
    exact ensureUngroupedRunNative tid w hf (ungroupNoop hW hft hgid)
  · intro s tid w t hW hff hft hwin
    obtain ⟨h1, h2, h3, h4, h5⟩ := ensureHopRun tid w hW hff hft hwin
    exact ⟨h1, h4, h5⟩
  · intro s tid w t hW hff hft hwin
    obtain ⟨h1, h2, h3, h4, h5⟩ := ensureHopRun tid w hW hff hft hwin
    have hff2 : ∀ k,
        (stOf (ensureUngrouped (worldHost false) tid w) s).failAt k = false := by
      rw [h2]
      exact hff
    obtain ⟨g1, g2, g3, g4, g5⟩ := ensureHopRun tid w h3 hff2 h4 rfl
    rw [g4, h4, h5]

/-- C7 witness: on the two-tab window `hopW`, the native path leaves the
already-ungrouped tab 1 untouched, the hop fallback sends it to the tail
slot (index 1) of its own window, and a second hop call reproduces the
same snapshot. -/
theorem C7_witness :
    WF hopW
    ∧ ensureUngrouped (worldHost true) 1 7 ⟨hopW, noFail, 0, []⟩ =
      (Except.ok (), ⟨hopW, noFail, 1, [Cmd.ungroup 1]⟩)
    ∧ (resOf (ensureUngrouped (worldHost false) 1 7) ⟨hopW, noFail, 0, []⟩ =
        Except.ok () ∧
      findTab (stOf (ensureUngrouped (worldHost false) 1 7)
          ⟨hopW, noFail, 0, []⟩).world 1 =
        some ⟨1, 7, TAB_GROUP_ID_NONE, Int.ofNat (winCount hopW 7 - 1), none⟩ ∧
      winCount (stOf (ensureUngrouped (worldHost false) 1 7)
          ⟨hopW, noFail, 0, []⟩).world 7 = winCount hopW 7)
    ∧ findTab (stOf (ensureUngrouped (worldHost false) 1 7)
          (stOf (ensureUngrouped (worldHost false) 1 7)
            ⟨hopW, noFail, 0, []⟩)).world 1 =
        findTab (stOf (ensureUngrouped (worldHost false) 1 7)
          ⟨hopW, noFail, 0, []⟩).world 1 := by
  refine ⟨⟨by decide, by decide, by decide⟩, ?_, ?_, ?_⟩
  · exact C7_amended_idempotence.1 ⟨hopW, noFail, 0, []⟩ 1 7 ⟨1, 7, -1, 0, none⟩
      ⟨by decide, by decide, by decide⟩ rfl rfl rfl
  · exact C7_amended_idempotence.2.1 ⟨hopW, noFail, 0, []⟩ 1 7 ⟨1, 7, -1, 0, none⟩
      ⟨by decide, by decide, by decide⟩ (fun k => rfl) rfl rfl
  · exact C7_amended_idempotence.2.2 ⟨hopW, noFail, 0, []⟩ 1 7 ⟨1, 7, -1, 0, none⟩
      ⟨by decide, by decide, by decide⟩ (fun k => rfl) rfl rfl

theorem getOpenerRunExplicit {s : WSt} {op : Tab} {oid : Int} (ua : Bool)
    (hist : HistMap) (nt : Tab)
    (hop : nt.openerTabId = some oid) (hf : s.failAt s.k = false)
    (hfind : findTab s.world oid = some op) :
    getOpenerForNewTab (worldHost ua) hist nt s =
      (Except.ok (some op),
        { s with k := s.k + 1, log := s.log ++ [Cmd.getTab oid] }) := by
  unfold getOpenerForNewTab
  dsimp only
  simp only [hop]
  rw [bindApp, tryJSApp, bindApp, wGetOk ua oid hf hfind]
  rfl

theorem onCreatedRunMain {s : WSt} {op : Tab} {oid : Int} (nt : Tab)
    (hop : nt.openerTabId = some oid) (hff : ∀ k, s.failAt k = false)
    (hfind : findTab s.world oid = some op) (hg : isGrouped op = true) :
    onCreated (worldHost true) histEmpty (some nt) s =
      moveDirectlyAfterGroup (worldHost true) nt op
        { s with k := s.k + 1, log := s.log ++ [Cmd.getTab oid] } := by
  unfold onCreated
  dsimp only
  rw [bindApp, getOpenerRunExplicit true histEmpty nt hop (hff s.k) hfind]
  dsimp only
  rw [if_neg (by simp [hg])]
  rw [pureBindApp]

/-- C1 (corrected): for a creation event resolved through the explicit
opener reference to a grouped opener in the new tab's own window, the
handler succeeds and places the new tab at index
min(max-group-index + 1, tab-count - 1) of that window, computed over the
world in which the new tab has just been ungrouped, and leaves the new
tab ungrouped.  (The claimed min(tab-count, max+1) overshoots by one
whenever the group extends to the window's last slot.) -/
theorem C1_amended_placement
    (s : WSt) (nt op ntS : Tab) (oid : Int)
    (hW : WF s.world) (hff : ∀ k, s.failAt k = false)
    (hop : nt.openerTabId = some oid)
    (hfind : findTab s.world oid = some op)
    (hg : isGrouped op = true)
    (hw : nt.windowId = op.windowId)
    (hnt : findTab s.world nt.id = some ntS)
    (hntw : ntS.windowId = op.windowId)
    (hne : nt.id ≠ oid) :
    resOf (onCreated (worldHost true) histEmpty (some nt)) s = Except.ok () ∧
    tabPos (stOf (onCreated (worldHost true) histEmpty (some nt)) s).world
        op.windowId nt.id =
      some (min ((groupEnd (ungroupedW s.world nt.id) op.groupId
          op.windowId).toNat + 1)
        (winCount (ungroupedW s.world nt.id) op.windowId - 1)) ∧
    tabGid (stOf (onCreated (worldHost true) histEmpty (some nt)) s).world
        nt.id = some TAB_GROUP_ID_NONE := by
  have hu : worldUngroup s.world nt.id = some (ungroupedW s.world nt.id) := by
    unfold ungroupedW
    rw [ungroupSome hnt]
    rfl
  have hWA : WF (ungroupedW s.world nt.id) := wfUngroup hW hu
  have hoid : op.id = oid := (findTabSpec hfind).1
  have hget : findTab s.world op.id = some op := by
    rw [hoid]
    exact hfind
  have hopA : findTab (ungroupedW s.world nt.id) oid = some op :=
    findTabUngroupOther hW hu hfind (Ne.symm hne)
  have hend0 : 0 ≤ groupEnd (ungroupedW s.world nt.id) op.groupId op.windowId :=
    groupEndGe hWA hopA rfl rfl
  have hntA := findTabUngroupSelf hW hu hnt
  have hweA : winExists (ungroupedW s.world nt.id) op.windowId = true := by
    have h1 := winExistsOfFind hWA hopA
    exact h1
  obtain ⟨W2, hmv⟩ := moveSome op.windowId
    (min (Int.ofNat (winList (ungroupedW s.world nt.id) op.windowId).length)
      (groupEnd (ungroupedW s.world nt.id) op.groupId op.windowId + 1))
    hntA hweA
  have hend : ¬ groupEnd (ungroupedW s.world nt.id) op.groupId op.windowId < 0 := by
    omega
  have hrunM : moveDirectlyAfterGroup (worldHost true) nt op
      { s with k := s.k + 1, log := s.log ++ [Cmd.getTab oid] } =
      (Except.ok (),
        { s with
            world := W2,
            k := s.k + 1 + 5,
            log := (s.log ++ [Cmd.getTab oid]) ++ [Cmd.waitStep,
              Cmd.getTab op.id, Cmd.ungroup nt.id,
              Cmd.queryGW op.groupId op.windowId, Cmd.queryW op.windowId,
              Cmd.move nt.id op.windowId
                (min (Int.ofNat (winList (ungroupedW s.world nt.id)
                    op.windowId).length)
                  (groupEnd (ungroupedW s.world nt.id) op.groupId
                    op.windowId + 1))] }) :=
    moveDirectlyRunSame hff hget hg hw hu hend hmv
  have hrun : onCreated (worldHost true) histEmpty (some nt) s =
      (Except.ok (),
        { s with
            world := W2,
            k := s.k + 1 + 5,
            log := (s.log ++ [Cmd.getTab oid]) ++ [Cmd.waitStep,
              Cmd.getTab op.id, Cmd.ungroup nt.id,
              Cmd.queryGW op.groupId op.windowId, Cmd.queryW op.windowId,
              Cmd.move nt.id op.windowId
                (min (Int.ofNat (winList (ungroupedW s.world nt.id)
                    op.windowId).length)
                  (groupEnd (ungroupedW s.world nt.id) op.groupId
                    op.windowId + 1))] }) := by
    rw [onCreatedRunMain nt hop hff hfind hg, hrunM]
  have hchar := moveDestChar hWA hmv
  have hlf : ((winList (ungroupedW s.world nt.id) op.windowId).filter
      (fun x => x.id ≠ nt.id)).length + 1 =
      (winList (ungroupedW s.world nt.id) op.windowId).length :=
    filterLenSelf hWA hntA hntw
  have hi0 : ¬ (min (Int.ofNat (winList (ungroupedW s.world nt.id)
      op.windowId).length)
      (groupEnd (ungroupedW s.world nt.id) op.groupId op.windowId + 1)) < 0 := by
    refine not_lt.mpr (le_min ?_ ?_)
    · rw [Int.ofNat_eq_natCast]
      exact Int.natCast_nonneg _
    · omega
  refine ⟨?_, ?_, ?_⟩
  · unfold resOf
    rw [hrun]
  · unfold stOf
    rw [hrun]
    dsimp only
    rw [hchar.2.1, if_neg hi0]
    unfold winCount
    congr 1
    rw [show (min (Int.ofNat (winList (ungroupedW s.world nt.id)
        op.windowId).length)
        (groupEnd (ungroupedW s.world nt.id) op.groupId op.windowId + 1)) =
        ((winList (ungroupedW s.world nt.id) op.windowId).length : Int) ⊓
        (groupEnd (ungroupedW s.world nt.id) op.groupId op.windowId + 1)
      from by rw [Int.ofNat_eq_natCast]]
    omega
  · unfold stOf
    rw [hrun]
    dsimp only
    unfold tabGid
    rw [hchar.1]
    simp [hntw]

/-- C1 witness: scenario 1 — in `exW1` the new tab 200 (opened from
grouped tab 101, group 5 ending at index 2 of window 7, five tabs in the
window) ends at index min(2+1, 5-1) = 3 and stays ungrouped. -/
theorem C1_witness :
    WF exW1 ∧
    (resOf (onCreated (worldHost true) histEmpty (some exTab1))
        ⟨exW1, noFail, 0, []⟩ = Except.ok () ∧
      tabPos (stOf (onCreated (worldHost true) histEmpty (some exTab1))
          ⟨exW1, noFail, 0, []⟩).world 7 200 =
        some (min ((groupEnd (ungroupedW exW1 200) 5 7).toNat + 1)
          (winCount (ungroupedW exW1 200) 7 - 1)) ∧
      tabGid (stOf (onCreated (worldHost true) histEmpty (some exTab1))
          ⟨exW1, noFail, 0, []⟩).world 200 = some TAB_GROUP_ID_NONE) :=
  ⟨⟨by decide, by decide, by decide⟩,
    C1_amended_placement ⟨exW1, noFail, 0, []⟩ exTab1 ⟨101, 7, 5, 1, none⟩
      ⟨200, 7, -1, 4, some 101⟩ 101 ⟨by decide, by decide, by decide⟩
      (fun k => rfl) rfl (by decide) (by decide) rfl (by decide) rfl (by decide)⟩
